import Mathlib

/-!
# AutoFileManager: the threshold-monitoring engine of `src/main.cpp`

A shallow embedding of `FileSizeMonitor` (class of `src/main.cpp`) and the
properties of it that the specification states.

Conventions of the embedding.

* A finite `double` is modelled by the rational number it denotes; `Double` adds
  `+infinity`. Sizes reported by the filesystem are finite. `std::stod` is modelled with
  its rounding to the nearest `double` (ties to even, subnormals included) and with the
  exception `std::out_of_range` it throws when the numeral overflows or underflows; a
  product by 1024 is exact below `2 ^ 1024` and `+infinity` from there on
  (`toDouble_near` and `toDouble_none` say what the conversion returns). NaN and
  negative zero arise from none of the strings and sizes the program handles.
* A `std::string` is modelled by the sequence of its characters; the code only
  inspects ASCII characters (tab, newline, carriage return, space, digits, dot and
  letters through `tolower`), so nothing depends on how other characters are encoded.
* The filesystem and `system()` are the environment. One `checkAllFiles` pass asks the
  environment at most once about each entry (an entry is of type `"file"` or of type
  `"path"`, never both), so the environment of a pass is a function from the position
  of the entry in `file_configs` to what the calls made for that entry return.
* `getCurrentFileSize` and the two removals catch every exception. The scan of a
  directory does not: `calculateDirectorySize` calls `std::filesystem::exists` at line
  279 before its `try`, and nothing up to `main` catches. `pathStep`, `checkAllFiles` and
  `runCycles` describe the passes in which every such call returns; `pathStepThrowing`,
  `checkAllFilesThrowing` and `startMonitoring` add the exception, and agree with the
  former when no call throws (`checkAllFilesThrowing_of_returns`).
* What a pass prints and executes is recorded as a list of `Event`s, in program order.
* A stop request (the signal handler calling `stopMonitoring`) is an input of the loop of
  `startMonitoring`: it may arrive while a pass runs or during any second of the wait,
  and the loop sees it at its next test of `running`.
* `formatFileSize` returns the string it builds: `std::fixed` with `std::setprecision(2)`
  writes the decimal numeral with two digits after the point nearest to the value, ties
  to even.
-/

namespace FileSizeMonitor

/-- The values of type `double` a threshold can take: a finite double, given by the
rational number it denotes, or `+infinity`, written `⊤`. The order is the order of
`double`. -/
abbrev Double := WithTop ℚ

/-- The record `FileConfig` of `src/main.cpp`, lines 22-29. -/
structure FileConfig where
  path : String
  max_size_bytes : Double
  original_size_str : String
  action : String
  has_warned : Bool
  type : String
  deriving DecidableEq

/-- What the environment returns for the calls made while one entry is evaluated. -/
structure Probe where
  /-- value returned by `getCurrentFileSize` (entry of type file) or by
  `getDirectorySize` (entry of type path) -/
  current_size : ℚ
  /-- exit status of the `rm -f` / `rm -rf` (`del`, `rd`) command -/
  delete_result : Int
  /-- exit status of the `mkdir -p` (`md`) command -/
  create_result : Int

/-- Observable steps of a pass; the first argument is the position of the entry in
`file_configs`. -/
inductive Event where
  /-- `getCurrentFileSize(config.path)` returned the given value -/
  | measureFile (i : Nat) (size : ℚ)
  /-- `getDirectorySize(config.path)` returned the given value -/
  | measureDir (i : Nat) (size : ℚ)
  /-- the quotient `current_size / config.max_size_bytes` was evaluated -/
  | percentage (i : Nat) (num : ℚ) (den : Double)
  /-- the line "Warning: File ... has exceeded size limit!" was printed -/
  | warnFile (i : Nat)
  /-- the line "Warning: Directory ... has exceeded size limit!" was printed -/
  | warnDir (i : Nat)
  /-- `deleteFileWithSystem(config.path)` was called and returned `ok` -/
  | deleteFile (i : Nat) (ok : Bool)
  /-- `deleteDirectoryWithSystem(config.path)` was called and returned `ok` -/
  | deleteDir (i : Nat) (ok : Bool)
  deriving DecidableEq

/-- The function `deleteFileWithSystem`, lines 308-337: success iff the command exits
with status 0. -/
def deleteFileWithSystem (result : Int) : Bool :=
  if result = 0 then true else false

/-- The function `deleteDirectoryWithSystem`, lines 340-386: the delete command, and
only when it succeeded the create command; success iff both exit with status 0. -/
def deleteDirectoryWithSystem (delete_result create_result : Int) : Bool :=
  if delete_result ≠ 0 then false
  else if create_result = 0 then true
  else false

/-- The function `handleOversizeFile`, lines 389-407. -/
def handleOversizeFile (p : Probe) (i : Nat) (config : FileConfig) :
    FileConfig × List Event :=
  if config.action = "trash" then
    if deleteFileWithSystem p.delete_result then
      ({ config with has_warned := true }, [Event.deleteFile i true])
    else
      (config, [Event.deleteFile i false])
  else
    if !config.has_warned then
      ({ config with has_warned := true }, [Event.warnFile i])
    else
      (config, [])

/-- The function `handleOversizePath`, lines 410-432, when the calls of the directory
scan return. The second directory scan of the warn branch only feeds the line it prints
and is part of the warning event (`handleOversizePathThrowing` adds its exception). -/
def handleOversizePath (p : Probe) (i : Nat) (config : FileConfig) :
    FileConfig × List Event :=
  if config.action = "trash" then
    if deleteDirectoryWithSystem p.delete_result p.create_result then
      ({ config with has_warned := true }, [Event.deleteDir i true])
    else
      (config, [Event.deleteDir i false])
  else
    if !config.has_warned then
      ({ config with has_warned := true }, [Event.warnDir i])
    else
      (config, [])

/-- Body of the first loop of `checkAllFiles`, lines 443-471, for the entry at
position `i`. -/
def fileStep (p : Probe) (i : Nat) (config : FileConfig) : FileConfig × List Event :=
  if config.type ≠ "file" then (config, [])
  else
    let current_size := p.current_size
    if current_size < 0 then
      ({ config with has_warned := false }, [Event.measureFile i current_size])
    else if (current_size : Double) > config.max_size_bytes then
      let r := handleOversizeFile p i config
      (r.1, Event.measureFile i current_size :: r.2)
    else
      ({ config with has_warned := false },
        [Event.measureFile i current_size,
         Event.percentage i current_size config.max_size_bytes])

/-- Body of the second loop of `checkAllFiles`, lines 475-503, for the entry at
position `i`, when the calls of the directory scan return (`pathStepThrowing` adds the
exception of `std::filesystem::exists`). -/
def pathStep (p : Probe) (i : Nat) (config : FileConfig) : FileConfig × List Event :=
  if config.type ≠ "path" then (config, [])
  else
    let current_size := p.current_size
    if current_size ≤ 0 then
      ({ config with has_warned := false }, [Event.measureDir i current_size])
    else if (current_size : Double) > config.max_size_bytes then
      let r := handleOversizePath p i config
      (r.1, Event.measureDir i current_size :: r.2)
    else
      ({ config with has_warned := false },
        [Event.measureDir i current_size,
         Event.percentage i current_size config.max_size_bytes])

/-- A range-for loop over `file_configs` whose body is `step`, started at position `i`:
the entries after the loop and the events of the loop, in order. -/
def forEach (step : Probe → Nat → FileConfig → FileConfig × List Event)
    (env : Nat → Probe) : Nat → List FileConfig → List FileConfig × List Event
  | _, [] => ([], [])
  | i, config :: rest =>
    let r := step (env i) i config
    let rs := forEach step env (i + 1) rest
    (r.1 :: rs.1, r.2 ++ rs.2)

/-- The function `checkAllFiles`, lines 435-504, when the calls of the directory scans
return: the loop over the entries of type file, then the loop over the entries of type
path. -/
def checkAllFiles (env : Nat → Probe) (file_configs : List FileConfig) :
    List FileConfig × List Event :=
  let r1 := forEach fileStep env 0 file_configs
  let r2 := forEach pathStep env 0 r1.1
  (r2.1, r1.2 ++ r2.2)

/-- The loop of `startMonitoring` (lines 528-535) for as many iterations as there are
environments in the list: `checkAllFiles` once per cycle, on the entries the previous
cycle left. Returns the final entries and the events of every cycle. -/
def runCycles : List (Nat → Probe) → List FileConfig → List FileConfig × List (List Event)
  | [], file_configs => (file_configs, [])
  | env :: envs, file_configs =>
    let r := checkAllFiles env file_configs
    let rs := runCycles envs r.1
    (rs.1, r.2 :: rs.2)

/-! ### Reading the configuration -/

/-- Application of `std::transform(..., ::tolower)` to a string: every character through
`tolower`, which maps `A`-`Z` to `a`-`z` and leaves the rest. -/
def toLower (s : String) : String := ⟨s.data.map Char.toLower⟩

/-- The value of a decimal digit character. -/
def digitVal (c : Char) : Nat := c.toNat - 48

/-- Consume the leading decimal digits of a string: the number read so far (starting
from `acc`), how many digits were read (starting from `n`), and what is left. -/
def scanDigits : List Char → Nat → Nat → Nat × Nat × List Char
  | [], acc, n => (acc, n, [])
  | c :: cs, acc, n =>
    if c.isDigit then scanDigits cs (acc * 10 + digitVal c) (n + 1)
    else (acc, n, c :: cs)

/-- The power `2 ^ e` for an integer `e`. -/
@[irreducible]
def twoPow (e : Int) : ℚ :=
  if 0 ≤ e then ((2 ^ e.toNat : ℕ) : ℚ) else 1 / ((2 ^ (-e).toNat : ℕ) : ℚ)

/-- The integer nearest to a non-negative rational, the even one of the two when it is
half way between them (the rounding of `double` arithmetic and of the streams). -/
def roundHalfEven (q : ℚ) : ℕ :=
  let f := ⌊q⌋₊
  if q - f < 1 / 2 then f
  else if 1 / 2 < q - f then f + 1
  else if f % 2 = 0 then f
  else f + 1

/-- The test `q < 2 ^ x` for a non-negative `q`, made on its numerator and denominator
by cross multiplication. -/
def ltTwoPow (q : ℚ) (x : ℤ) : Bool :=
  decide (q.num.toNat * 2 ^ (-x).toNat < q.den * 2 ^ x.toNat)

/-- The exponent of the unit in the last place of the doubles around a non-negative `q`:
the least `pe` from `-1074` on with `q < 2 ^ (pe + 53)`, searched upwards from `pe` for
`fuel` steps; the search from `-1074` with 2045 steps ends at 971 at the latest, the
exponent of the largest doubles. -/
@[irreducible]
def ulpExponent (q : ℚ) : ℕ → ℤ → ℤ
  | 0, pe => pe
  | fuel + 1, pe => if ltTwoPow q (pe + 53) then pe else ulpExponent q fuel (pe + 1)

/-- The double nearest to a non-negative `q`, ties to even, were the exponent of a
double unbounded above: a multiple of the unit in the last place, with a significand of
53 bits, or fewer below `2 ^ (-1022)`. -/
@[irreducible]
def nearestDouble (q : ℚ) : ℚ :=
  let pe := ulpExponent q 2045 (-1074)
  (roundHalfEven (q / twoPow pe) : ℚ) * twoPow pe

/-- The conversion `strtod` makes of a non-negative decimal number `q`, as `std::stod`
sees it: the nearest double, or `none` when `strtod` reports a range error (`ERANGE`),
which makes `std::stod` throw `std::out_of_range`. The range error is reported when the
nearest double would be `2 ^ 1024` or more (overflow), and when `q` is tiny and no double
holds it exactly (underflow, as the C library of the build that is not for Windows
reports it: tiny is below `2 ^ (-1022)` after rounding with 53 bits). -/
@[irreducible]
def toDouble (q : ℚ) : Option ℚ :=
  let d := nearestDouble q
  if twoPow 1024 ≤ d then none
  else if q < twoPow (-1022) - twoPow (-1076) ∧ d ≠ q then none
  else some d

/-- The call `std::stod(num_str)` on the strings `parseSizeString` passes to it, which
hold digits and dots only: the longest prefix of the form digits, optional dot, digits
is converted to the nearest double; `none` stands for the exception thrown, either
`std::invalid_argument` when that prefix holds no digit or `std::out_of_range` when the
number is outside the range of `double`. -/
def stod (num_str : List Char) : Option ℚ :=
  let r1 := scanDigits num_str 0 0
  match r1.2.2 with
  | '.' :: frac =>
    let r2 := scanDigits frac 0 0
    if r1.2.1 + r2.2.1 = 0 then none
    else toDouble ((r1.1 : ℚ) + (r2.1 : ℚ) / 10 ^ r2.2.1)
  | _ => if r1.2.1 = 0 then none else toDouble (r1.1 : ℚ)

/-- The test of the scanning loop of `parseSizeString`, line 75. -/
def isNumChar (c : Char) : Bool := c.isDigit || c == '.'

/-- The product `x * 1024.0` of `double` arithmetic for a non-negative double `x`: the
scaling by a power of two is exact, and a product of `2 ^ 1024` or more is
`+infinity`. -/
def mul1024 (x : Double) : Double :=
  match x with
  | none => ⊤
  | some q => if q * 1024 < twoPow 1024 then ((q * 1024 : ℚ) : Double) else ⊤

/-- The function `parseSizeString`, lines 67-111. The `catch` of lines 87-90 takes every
exception of `std::stod`. The products are made from left to right. -/
def parseSizeString (size_str : String) : Double :=
  if size_str.data = [] then 0
  else
    let num_str := size_str.data.takeWhile isNumChar
    let unit := size_str.data.dropWhile isNumChar
    match stod num_str with
    | none => 0
    | some size_value =>
      let unit_lower := toLower ⟨unit⟩
      if unit_lower = "" ∨ unit_lower = "b" then (size_value : Double)
      else if unit_lower = "k" ∨ unit_lower = "kb" then mul1024 size_value
      else if unit_lower = "m" ∨ unit_lower = "mb" then mul1024 (mul1024 size_value)
      else if unit_lower = "g" ∨ unit_lower = "gb" then
        mul1024 (mul1024 (mul1024 size_value))
      else if unit_lower = "t" ∨ unit_lower = "tb" then
        mul1024 (mul1024 (mul1024 (mul1024 size_value)))
      else (size_value : Double)

/-- The function `parseAction`, lines 114-124. -/
def parseAction (action_str : String) : String :=
  let action_lower := toLower action_str
  if action_lower = "warn" ∨ action_lower = "trash" then action_lower
  else "warn"

/-- Repeated `std::getline(stream, piece, delim)` until it fails, on a stream holding
`s`; `cur` is the piece being read, last character first. A piece ends at each
delimiter; at the end of the stream a piece is returned only if a character was read. -/
def getlines (delim : Char) : List Char → List Char → List (List Char)
  | [], cur => if cur = [] then [] else [cur.reverse]
  | c :: cs, cur =>
    if c = delim then cur.reverse :: getlines delim cs []
    else getlines delim cs (c :: cur)

/-- Removal of a UTF-8 byte-order mark at the start of the content, lines 144-149 (the
bytes EF BB BF are the character U+FEFF). -/
def stripBOM (content : List Char) : List Char :=
  match content with
  | c :: rest => if c = Char.ofNat 0xFEFF then rest else content
  | [] => content

/-- Removal of one trailing carriage return, lines 161-163. -/
def stripCR (line : List Char) : List Char :=
  if line ≠ [] ∧ line.getLast? = some '\r' then line.dropLast else line

/-- Space or tab, the characters trimmed from a field. -/
def isBlankChar (c : Char) : Bool := c == ' ' || c == '\t'

/-- Trimming of a field, lines 183-184: the leading blanks are erased, then what follows
the last character that is not a blank. -/
def trimField (field : List Char) : List Char :=
  ((field.dropWhile isBlankChar).reverse.dropWhile isBlankChar).reverse

/-- The fields of a line, lines 177-186: the pieces `std::getline` cuts at tabs, each
trimmed. -/
def splitFields (line : List Char) : List String :=
  (getlines '\t' line []).map (fun field => String.mk (trimField field))

/-- The type of a record, lines 197-210. -/
def resolveType (fields : List String) : String :=
  if fields.length ≥ 4 then
    let type := toLower (fields.getD 3 "")
    if type ≠ "file" ∧ type ≠ "path" then "file" else type
  else "file"

/-- The entry built from the fields of a record, lines 194-220 (build for a system
other than Windows: the path is taken as it is). -/
def makeConfig (fields : List String) : FileConfig :=
  let file_path := fields.getD 0 ""
  let size_str := fields.getD 1 ""
  let action_str := fields.getD 2 ""
  let type := resolveType fields
  let max_bytes := parseSizeString size_str
  let action := parseAction action_str
  { path := file_path, max_size_bytes := max_bytes, original_size_str := size_str,
    action := action, has_warned := false, type := type }

/-- The loop of `loadConfig` over the lines, lines 157-224; `first_line` and
`file_configs` are the variables of the program. -/
def loadLines : List (List Char) → Bool → List FileConfig → List FileConfig
  | [], _, file_configs => file_configs
  | raw :: rest, first_line, file_configs =>
    let line := stripCR raw
    if line = [] then loadLines rest first_line file_configs
    else if first_line then loadLines rest false file_configs
    else
      let fields := splitFields line
      if fields.length < 3 then loadLines rest first_line file_configs
      else loadLines rest first_line (file_configs ++ [makeConfig fields])

/-- The function `loadConfig`, lines 127-228, once the file has been opened and read:
`content` is what was read and `file_configs` the entries the monitor already holds
(none when `main` calls it). Returns the value of `loadConfig` and the entries. -/
def loadConfig (file_configs : List FileConfig) (content : String) :
    Bool × List FileConfig :=
  let r := loadLines (getlines '\n' (stripBOM content.data) []) true file_configs
  (!r.isEmpty, r)

/-- The number a string of decimal digits denotes: each digit weighs ten to the number
of digits on its right. -/
def digitsValue : List Char → Nat
  | [] => 0
  | d :: ds => digitVal d * 10 ^ ds.length + digitsValue ds

/-- The number the decimal numeral `intPart.fracPart` denotes. -/
def decimalValue (intPart fracPart : List Char) : ℚ :=
  (digitsValue intPart : ℚ) + (digitsValue fracPart : ℚ) / 10 ^ fracPart.length

/-- The threshold a decimal number `n` with a unit of exponent `k` stands for in
`double` arithmetic: 0 when the conversion of `n` reports a range error; otherwise, with
`d` the double nearest to `n`, the product `d * 1024 ^ k` when it is below `2 ^ 1024`
and `+infinity` when it is not. -/
def thresholdOf (n : ℚ) (k : ℕ) : Double :=
  match toDouble n with
  | none => 0
  | some d => if d * 1024 ^ k < twoPow 1024 then ((d * 1024 ^ k : ℚ) : Double) else ⊤

/-- The table of unit suffixes of the specification, in lower case: the power of 1024
each stands for. -/
def unitExponent (unit_lower : String) : Option Nat :=
  if unit_lower = "" ∨ unit_lower = "b" then some 0
  else if unit_lower = "k" ∨ unit_lower = "kb" then some 1
  else if unit_lower = "m" ∨ unit_lower = "mb" then some 2
  else if unit_lower = "g" ∨ unit_lower = "gb" then some 3
  else if unit_lower = "t" ∨ unit_lower = "tb" then some 4
  else none

/-- Two strings are equal ignoring case: they have the same lower-case form. -/
def equalsIgnoringCase (s t : String) : Prop := toLower s = toLower t

instance (s t : String) : Decidable (equalsIgnoringCase s t) := by
  unfold equalsIgnoringCase; infer_instance

/-- The lines of a configuration file that are not blank, each without its trailing
carriage return; a line is blank when nothing or a lone carriage return stands between
two newlines. -/
def nonBlankRecords (content : String) : List (List Char) :=
  ((getlines '\n' (stripBOM content.data) []).map stripCR).filter (fun l => l ≠ [])

/-- The records of a configuration file after its header: the lines that are not blank,
without the first of them. -/
def dataRecords (content : String) : List (List Char) :=
  (nonBlankRecords content).tail

/-- Number of tab-separated fields of a record: one more than its tabs. -/
def fieldCount (record : List Char) : Nat := record.count '\t' + 1

/-- Number of fields of a record when an empty field after a final tab is not counted. -/
def fieldCountNoTrailing (record : List Char) : Nat :=
  record.count '\t' + (if record.getLast? = some '\t' then 0 else 1)

/-! ### Reading a trace -/

/-- The position of the entry an event is about. -/
def Event.index : Event → Nat
  | .measureFile i _ => i
  | .measureDir i _ => i
  | .percentage i _ _ => i
  | .warnFile i => i
  | .warnDir i => i
  | .deleteFile i _ => i
  | .deleteDir i _ => i

/-- The events of a trace that are about the entry at position `j`. -/
def eventsOf (j : Nat) (t : List Event) : List Event :=
  t.filter (fun e => e.index = j)

/-- A warning was printed. -/
def Event.isWarn : Event → Bool
  | .warnFile _ => true
  | .warnDir _ => true
  | _ => false

/-- A removal was attempted. -/
def Event.isDelete : Event → Bool
  | .deleteFile _ _ => true
  | .deleteDir _ _ => true
  | _ => false

/-- The percentage quotient was evaluated. -/
def Event.isPercentage : Event → Bool
  | .percentage _ _ _ => true
  | _ => false

/-- Everything one pass does to one entry: the body of the first loop, then the body
of the second loop on what the first left. -/
def evalEntry (p : Probe) (i : Nat) (config : FileConfig) : FileConfig × List Event :=
  let r1 := fileStep p i config
  let r2 := pathStep p i r1.1
  (r2.1, r1.2 ++ r2.2)

/-- Repeated passes seen from one entry. -/
def entryCycles (i : Nat) : List Probe → FileConfig → FileConfig × List (List Event)
  | [], config => (config, [])
  | p :: ps, config =>
    let r := evalEntry p i config
    let rs := entryCycles i ps r.1
    (rs.1, r.2 :: rs.2)

/-! ### Vocabulary of the specification -/

/-- The measurement is NotAvailable: a file size reported as negative, a directory
total reported as 0 or less. -/
def notAvailable (config : FileConfig) (size : ℚ) : Prop :=
  if config.type = "file" then size < 0 else size ≤ 0

instance (config : FileConfig) (size : ℚ) : Decidable (notAvailable config size) := by
  unfold notAvailable; infer_instance

/-- The cycle is an exceeded cycle for the entry: the measured size is available and
strictly greater than the threshold. -/
def exceeds (config : FileConfig) (size : ℚ) : Prop :=
  ¬ notAvailable config size ∧ (size : Double) > config.max_size_bytes

instance (config : FileConfig) (size : ℚ) : Decidable (exceeds config size) := by
  unfold exceeds; infer_instance

/-- Number of exceeded episodes of a sequence of cycles, given for each cycle whether it
exceeds: the number of maximal runs of consecutive `true`, counted by their first
cycles, the cycles that exceed while the cycle before them, if there is one, does
not. -/
def episodes (xs : List Bool) : Nat :=
  (List.range xs.length).countP
    (fun k => xs.getD k false && !(decide (0 < k) && xs.getD (k - 1) false))

/-- Count of the cycles that exceed while the cycle before them does not, `prev`
standing for the cycle before the first. -/
def episodesFrom (prev : Bool) : List Bool → Nat
  | [] => 0
  | x :: xs => (if x && !prev then 1 else 0) + episodesFrom x xs

/-- Number of warnings printed for the entry at position `j` in the traces of a
sequence of passes. -/
def warningsEmitted (j : Nat) (traces : List (List Event)) : Nat :=
  (traces.map (fun t => ((eventsOf j t).filter Event.isWarn).length)).sum

/-- Outcome of the removal that a Trash entry attempts: `deleteFileWithSystem` for an
entry of type file, `deleteDirectoryWithSystem` (delete, then recreate) otherwise. -/
def removalSucceeds (config : FileConfig) (p : Probe) : Bool :=
  if config.type = "file" then deleteFileWithSystem p.delete_result
  else deleteDirectoryWithSystem p.delete_result p.create_result

/-- The removal event of an entry, as `handleOversizeFile` or `handleOversizePath`
records it. -/
def removalEvent (config : FileConfig) (i : Nat) (ok : Bool) : Event :=
  if config.type = "file" then Event.deleteFile i ok else Event.deleteDir i ok

/-- The target evaluations of a trace, in order: which probe was called (`"file"` for
`getCurrentFileSize`, `"path"` for `getDirectorySize`) and for which entry. -/
def evaluations (t : List Event) : List (String × Nat) :=
  t.filterMap (fun e =>
    match e with
    | .measureFile i _ => some ("file", i)
    | .measureDir i _ => some ("path", i)
    | _ => none)

/-- What the environment does with the calls made while one entry is evaluated, the
exception of `std::filesystem::exists` included. `calculateDirectorySize` makes that call
at line 279, before its `try`, and no caller up to `main` has a `catch`: a
`filesystem_error` thrown there leaves `checkAllFiles`, `startMonitoring` and `main`.
`getCurrentFileSize` makes the same call inside its `try` (line 242), so the probe of a
file always returns, and so do the removals, which catch every exception. -/
structure Outcome where
  /-- what the calls return when they return -/
  probe : Probe
  /-- the call `std::filesystem::exists` throws in the scan `getDirectorySize` makes for
  line 481 -/
  scan_throws : Bool
  /-- the call `std::filesystem::exists` throws in the second scan, line 426 -/
  rescan_throws : Bool

/-- The function `getDirectorySize`, lines 270-273, seen from its caller: the total it
returns, or `none` when the exception of line 279 leaves it. -/
def getDirectorySize (o : Outcome) : Option ℚ :=
  if o.scan_throws then none else some o.probe.current_size

/-- The function `handleOversizePath`, lines 410-432, with the exception of its second
scan: the warning line is printed before the scan and `has_warned` is set after it. The
last component tells whether an exception leaves the function. -/
def handleOversizePathThrowing (o : Outcome) (i : Nat) (config : FileConfig) :
    FileConfig × List Event × Bool :=
  if config.action = "trash" then
    if deleteDirectoryWithSystem o.probe.delete_result o.probe.create_result then
      ({ config with has_warned := true }, [Event.deleteDir i true], false)
    else
      (config, [Event.deleteDir i false], false)
  else
    if !config.has_warned then
      if o.rescan_throws then (config, [Event.warnDir i], true)
      else ({ config with has_warned := true }, [Event.warnDir i], false)
    else
      (config, [], false)

/-- Body of the second loop of `checkAllFiles`, lines 475-503, with the exceptions of
the directory probe. The last component tells whether an exception leaves the body. -/
def pathStepThrowing (o : Outcome) (i : Nat) (config : FileConfig) :
    FileConfig × List Event × Bool :=
  if config.type ≠ "path" then (config, [], false)
  else
    match getDirectorySize o with
    | none => (config, [], true)
    | some current_size =>
      if current_size ≤ 0 then
        ({ config with has_warned := false }, [Event.measureDir i current_size], false)
      else if (current_size : Double) > config.max_size_bytes then
        let r := handleOversizePathThrowing o i config
        (r.1, Event.measureDir i current_size :: r.2.1, r.2.2)
      else
        ({ config with has_warned := false },
          [Event.measureDir i current_size,
           Event.percentage i current_size config.max_size_bytes], false)

/-- The second range-for loop of `checkAllFiles` with the exceptions of the directory
probe, started at position `i`: an exception ends the loop, and the entries after the
one it came from are not visited. -/
def pathLoopThrowing (env : Nat → Outcome) :
    Nat → List FileConfig → List FileConfig × List Event × Bool
  | _, [] => ([], [], false)
  | i, config :: rest =>
    let r := pathStepThrowing (env i) i config
    if r.2.2 then (r.1 :: rest, r.2.1, true)
    else
      let rs := pathLoopThrowing env (i + 1) rest
      (r.1 :: rs.1, r.2.1 ++ rs.2.1, rs.2.2)

/-- The function `checkAllFiles`, lines 435-504, with the exceptions of the directory
probe: the loop over the entries of type file, which no exception leaves, then the loop
over the entries of type path. The last component tells whether an exception leaves
`checkAllFiles`. -/
def checkAllFilesThrowing (env : Nat → Outcome) (file_configs : List FileConfig) :
    List FileConfig × List Event × Bool :=
  let r1 := forEach fileStep (fun i => (env i).probe) 0 file_configs
  let r2 := pathLoopThrowing env 0 r1.1
  (r2.1, r1.2 ++ r2.2.1, r2.2.2)

/-! ### The monitor and its loop -/

/-- The data members of the class `FileSizeMonitor`, lines 31-32. -/
structure Monitor where
  file_configs : List FileConfig
  running : Bool

/-- The member function `checkAllFiles` on the state of the monitor: it reads and writes
`file_configs` only. The last component tells whether an exception leaves it. -/
def Monitor.checkAllFiles (env : Nat → Outcome) (m : Monitor) :
    Monitor × List Event × Bool :=
  let r := checkAllFilesThrowing env m.file_configs
  ({ m with file_configs := r.1 }, r.2.1, r.2.2)

/-- The function `stopMonitoring`, lines 539-541. -/
def stopMonitoring (m : Monitor) : Monitor :=
  { m with running := false }

/-- What reaches the monitor from outside during one iteration of the loop of
`startMonitoring`: what the filesystem and `system()` do, and the stop requests (the
signal handler calling `stopMonitoring`). -/
structure Cycle where
  /-- outcomes of the calls of the `checkAllFiles` pass -/
  env : Nat → Outcome
  /-- a stop request arrives while `checkAllFiles` runs -/
  stop_in_pass : Bool
  /-- a stop request arrives during the given second of the wait -/
  stop_in_second : Nat → Bool

/-- The wait of `startMonitoring`, lines 532-534: `remaining` is
`check_interval_seconds - i`; each turn tests `running` and sleeps one second, during
which a stop request may arrive. -/
def waitLoop (stop_in_second : Nat → Bool) : Nat → Nat → Monitor → Monitor
  | 0, _, m => m
  | remaining + 1, i, m =>
    if m.running then
      waitLoop stop_in_second remaining (i + 1)
        (if stop_in_second i then stopMonitoring m else m)
    else m

/-- One iteration of the loop of `startMonitoring`, lines 529-534: the pass, then the
wait, which an exception of the pass skips. The last component tells whether an
exception leaves the iteration. -/
def iteration (check_interval_seconds : Int) (c : Cycle) (m : Monitor) :
    Monitor × List Event × Bool :=
  let r := m.checkAllFiles c.env
  let m1 := if c.stop_in_pass then stopMonitoring r.1 else r.1
  if r.2.2 then (m1, r.2.1, true)
  else (waitLoop c.stop_in_second check_interval_seconds.toNat 0 m1, r.2.1, false)

/-- How the loop of `startMonitoring` stands after the cycles it was given. -/
inductive LoopEnd where
  /-- the cycles ran out with `running` still set: the loop goes on -/
  | running
  /-- the test `while (running)` found `running` false: `startMonitoring` returns -/
  | stopped
  /-- an exception left `checkAllFiles` and, nothing catching it, `startMonitoring` and
  `main`: the program is terminated -/
  | uncaught
  deriving DecidableEq

/-- The loop `while (running)` of `startMonitoring`, line 528, for at most as many
iterations as the list holds cycles. -/
def whileRunning (check_interval_seconds : Int) :
    List Cycle → Monitor → Monitor × List (List Event) × LoopEnd
  | [], m => (m, [], if m.running then LoopEnd.running else LoopEnd.stopped)
  | c :: cs, m =>
    if m.running then
      let r := iteration check_interval_seconds c m
      if r.2.2 then (r.1, [r.2.1], LoopEnd.uncaught)
      else
        let rs := whileRunning check_interval_seconds cs r.1
        (rs.1, r.2.1 :: rs.2.1, rs.2.2)
    else (m, [], LoopEnd.stopped)

/-- The function `startMonitoring`, lines 523-536. -/
def startMonitoring (check_interval_seconds : Int) (cycles : List Cycle) (m : Monitor) :
    Monitor × List (List Event) × LoopEnd :=
  whileRunning check_interval_seconds cycles { m with running := true }

/-- A stop request arrives during the cycle, at a moment the loop of
`startMonitoring` with that interval lives through. -/
def Cycle.stopRequested (check_interval_seconds : Int) (c : Cycle) : Prop :=
  c.stop_in_pass = true ∨ ∃ i, i < check_interval_seconds.toNat ∧ c.stop_in_second i = true

/-- No call of the pass throws. -/
def returns (env : Nat → Outcome) : Prop :=
  ∀ i, (env i).scan_throws = false ∧ (env i).rescan_throws = false

/-- An entry without its flag `has_warned`: the fields a pass has to leave alone. -/
def FileConfig.settings (c : FileConfig) : String × String × Double × String × String :=
  (c.path, c.type, c.max_size_bytes, c.original_size_str, c.action)

/-! ### Display of a size -/

/-- The table `units` of `formatFileSize`, line 508. -/
def units : List String := ["B", "KB", "MB", "GB", "TB"]

/-- The loop of `formatFileSize`, lines 512-515, for at most `fuel` turns. A finite
`double` of 1024 or more is divided by 1024 without rounding, so the quotient of the
rationals is the quotient of the doubles. -/
def scaleLoop : Nat → ℚ → Nat → ℚ × Nat
  | 0, size, unit_index => (size, unit_index)
  | fuel + 1, size, unit_index =>
    if size ≥ 1024 ∧ unit_index < 4 then scaleLoop fuel (size / 1024) (unit_index + 1)
    else (size, unit_index)

/-- What `ss << std::fixed << std::setprecision(precision) << size` writes for a finite
`double`: the decimal numeral with `precision` digits after the point that is nearest to
the value, ties to the even last digit (the conversion `%.*f` of the C library, on which
the stream relies, rounds the exact value in the current rounding mode), a minus sign
before it for a negative value, and no point when `precision` is 0. -/
def fixed (precision : Nat) (size : ℚ) : String :=
  let n := roundHalfEven (|size| * 10 ^ precision)
  let frac := Nat.repr (n % 10 ^ precision)
  (if size < 0 then "-" else "") ++ Nat.repr (n / 10 ^ precision)
    ++ (if precision = 0 then ""
        else "." ++ String.mk (List.replicate (precision - frac.length) '0') ++ frac)

/-- The function `formatFileSize`, lines 507-520. Its callers (lines 391, 412, 458, 490)
pass a size the filesystem measured, a finite `double`. The loop starts at index 0 and
stops at index 4, so 4 turns are all it can take. -/
def formatFileSize (size_bytes : ℚ) : String :=
  let r := scaleLoop 4 size_bytes 0
  fixed 2 r.1 ++ " " ++ units.getD r.2 ""

/-- The unit index of the specification: the number of times a byte count can be divided
by 1024 while remaining at least 1024, capped at 4, which is the number of `k` among
1, 2, 3, 4 such that `1024 ^ k` is at most the byte count. -/
def unitIndex (s : ℚ) : Nat :=
  ((List.range 4).filter (fun k => decide ((1024 : ℚ) ^ (k + 1) ≤ s))).length

/-- The value displayed for a byte count, in hundredths: `s / 1024 ^ u` for the unit
index `u` of `s`, rounded to the nearest hundredth, ties to even. -/
def displayedHundredths (s : ℚ) : Nat :=
  roundHalfEven (s / 1024 ^ unitIndex s * 100)

/-! ### One entry at a time -/

theorem fileStep_index (p : Probe) (i : Nat) (c : FileConfig) :
    ∀ e ∈ (fileStep p i c).2, e.index = i := by
  intro e he
  simp only [fileStep, handleOversizeFile] at he
  split_ifs at he <;> simp at he <;> (try rcases he with rfl | rfl) <;> rfl

theorem pathStep_index (p : Probe) (i : Nat) (c : FileConfig) :
    ∀ e ∈ (pathStep p i c).2, e.index = i := by
  intro e he
  simp only [pathStep, handleOversizePath] at he
  split_ifs at he <;> simp at he <;> (try rcases he with rfl | rfl) <;> rfl

theorem forEach_fst_getElem? (step : Probe → Nat → FileConfig → FileConfig × List Event)
    (env : Nat → Probe) (l : List FileConfig) (i n : Nat) :
    (forEach step env i l).1[n]? = (l[n]?).map (fun c => (step (env (i + n)) (i + n) c).1) := by
  induction l generalizing i n with
  | nil => simp [forEach]
  | cons c cs ih =>
    cases n with
    | zero => simp [forEach]
    | succ n =>
      simp only [forEach, List.getElem?_cons_succ]
      rw [ih (i + 1) n]
      have : i + 1 + n = i + (n + 1) := by omega
      rw [this]

theorem forEach_fst_length (step : Probe → Nat → FileConfig → FileConfig × List Event)
    (env : Nat → Probe) (l : List FileConfig) (i : Nat) :
    (forEach step env i l).1.length = l.length := by
  induction l generalizing i with
  | nil => simp [forEach]
  | cons c cs ih => simp [forEach, ih]

theorem forEach_eventsOf (step : Probe → Nat → FileConfig → FileConfig × List Event)
    (hstep : ∀ p k c, ∀ e ∈ (step p k c).2, e.index = k)
    (env : Nat → Probe) (j : Nat) (l : List FileConfig) (i n : Nat) (c : FileConfig)
    (hj : i + n = j) (hc : l[n]? = some c) :
    eventsOf j (forEach step env i l).2 = (step (env j) j c).2 := by
  induction l generalizing i n with
  | nil => simp at hc
  | cons d ds ih =>
    cases n with
    | zero =>
      simp at hc
      subst hc
      simp at hj
      subst hj
      simp only [forEach, eventsOf, List.filter_append]
      have h1 : List.filter (fun e => decide (e.index = i)) (step (env i) i d).2
          = (step (env i) i d).2 := by
        rw [List.filter_eq_self]
        intro e he
        simpa using hstep _ _ _ e he
      have h2 : ∀ (m : Nat) (ds : List FileConfig), i < m →
          List.filter (fun e => decide (e.index = i)) (forEach step env m ds).2 = [] := by
        intro m ds
        induction ds generalizing m with
        | nil => intro _; simp [forEach]
        | cons x xs ihx =>
          intro hm
          simp only [forEach, List.filter_append]
          rw [ihx (m + 1) (by omega)]
          simp only [List.append_nil, List.filter_eq_nil_iff]
          intro e he
          have := hstep _ _ _ e he
          simp; omega
      rw [h1, h2 (i + 1) ds (by omega)]
      simp
    | succ n =>
      simp only [List.getElem?_cons_succ] at hc
      simp only [forEach, eventsOf, List.filter_append]
      have h1 : List.filter (fun e => decide (e.index = j)) (step (env i) i d).2 = [] := by
        simp only [List.filter_eq_nil_iff]
        intro e he
        have := hstep _ _ _ e he
        simp; omega
      rw [h1]
      simpa [eventsOf] using ih (i + 1) n (by omega) hc

theorem evalEntry_index (p : Probe) (i : Nat) (c : FileConfig) :
    ∀ e ∈ (evalEntry p i c).2, e.index = i := by
  intro e he
  simp only [evalEntry, List.mem_append] at he
  rcases he with he | he
  · exact fileStep_index _ _ _ e he
  · exact pathStep_index _ _ _ e he

theorem checkAllFiles_getElem? (env : Nat → Probe) (l : List FileConfig) (j : Nat) :
    (checkAllFiles env l).1[j]? = (l[j]?).map (fun c => (evalEntry (env j) j c).1) := by
  simp only [checkAllFiles, forEach_fst_getElem?, Nat.zero_add, Option.map_map]
  rfl

theorem checkAllFiles_length (env : Nat → Probe) (l : List FileConfig) :
    (checkAllFiles env l).1.length = l.length := by
  simp [checkAllFiles, forEach_fst_length]

theorem checkAllFiles_eventsOf (env : Nat → Probe) (l : List FileConfig) (j : Nat)
    (c : FileConfig) (hc : l[j]? = some c) :
    eventsOf j (checkAllFiles env l).2 = (evalEntry (env j) j c).2 := by
  have h1 := forEach_eventsOf fileStep fileStep_index env j l 0 j c (by omega) hc
  have hc2 : (forEach fileStep env 0 l).1[j]? = some (fileStep (env j) j c).1 := by
    rw [forEach_fst_getElem?, hc]; simp
  have h2 := forEach_eventsOf pathStep pathStep_index env j _ 0 j _ (by omega) hc2
  simp only [eventsOf] at h1 h2
  simp only [checkAllFiles, evalEntry, eventsOf, List.filter_append, h1, h2]

theorem runCycles_getElem? (envs : List (Nat → Probe)) (l : List FileConfig) (j : Nat)
    (c : FileConfig) (hc : l[j]? = some c) :
    (runCycles envs l).1[j]? = some (entryCycles j (envs.map (fun env => env j)) c).1 := by
  induction envs generalizing l c with
  | nil => simpa [runCycles, entryCycles] using hc
  | cons env envs ih =>
    simp only [runCycles, entryCycles, List.map_cons]
    apply ih
    rw [checkAllFiles_getElem?, hc]; rfl

theorem runCycles_eventsOf (envs : List (Nat → Probe)) (l : List FileConfig) (j : Nat)
    (c : FileConfig) (hc : l[j]? = some c) :
    (runCycles envs l).2.map (eventsOf j)
      = (entryCycles j (envs.map (fun env => env j)) c).2 := by
  induction envs generalizing l c with
  | nil => simp [runCycles, entryCycles]
  | cons env envs ih =>
    simp only [runCycles, entryCycles, List.map_cons]
    rw [checkAllFiles_eventsOf env l j c hc]
    congr 1
    apply ih
    rw [checkAllFiles_getElem?, hc]; rfl

theorem evalEntry_of_file (p : Probe) (i : Nat) (c : FileConfig) (h : c.type = "file") :
    evalEntry p i c = fileStep p i c := by
  have hne : ("file" : String) ≠ "path" := by decide
  have ht : (fileStep p i c).1.type = "file" := by
    simp only [fileStep, handleOversizeFile]
    split_ifs <;> simp [h]
  simp only [evalEntry]
  have : pathStep p i (fileStep p i c).1 = ((fileStep p i c).1, []) := by
    simp [pathStep, ht]
  rw [this]; simp

theorem evalEntry_of_path (p : Probe) (i : Nat) (c : FileConfig) (h : c.type = "path") :
    evalEntry p i c = pathStep p i c := by
  have hne : ("path" : String) ≠ "file" := by decide
  have : fileStep p i c = (c, []) := by simp [fileStep, h]
  simp only [evalEntry, this, List.nil_append]

theorem evalEntry_of_other (p : Probe) (i : Nat) (c : FileConfig) (hf : c.type ≠ "file")
    (hp : c.type ≠ "path") : evalEntry p i c = (c, []) := by
  simp [evalEntry, fileStep, pathStep, hf, hp]

/-- A pass changes no field of an entry other than `has_warned`. -/
theorem evalEntry_frame (p : Probe) (i : Nat) (c : FileConfig) :
    (evalEntry p i c).1 = { c with has_warned := (evalEntry p i c).1.has_warned } := by
  by_cases hf : c.type = "file"
  · rw [evalEntry_of_file p i c hf]
    simp only [fileStep, handleOversizeFile]
    split_ifs <;> rfl
  · by_cases hp : c.type = "path"
    · rw [evalEntry_of_path p i c hp]
      simp only [pathStep, handleOversizePath]
      split_ifs <;> rfl
    · rw [evalEntry_of_other p i c hf hp]

/-! ### Warn entries: one warning per exceeded episode -/

theorem evalEntry_warn (p : Probe) (i : Nat) (c : FileConfig)
    (hk : c.type = "file" ∨ c.type = "path") (ha : c.action ≠ "trash") :
    (evalEntry p i c).1.has_warned = decide (exceeds c p.current_size) ∧
    ((evalEntry p i c).2.filter Event.isWarn).length
      = (if decide (exceeds c p.current_size) && !c.has_warned then 1 else 0) := by
  have hne : ("path" : String) ≠ "file" := by decide
  rcases hk with hk | hk
  · rw [evalEntry_of_file p i c hk]
    simp only [fileStep, handleOversizeFile, exceeds, notAvailable, hk, ha]
    by_cases h1 : p.current_size < 0
    · simp [h1, Event.isWarn]
    · by_cases h2 : p.current_size > c.max_size_bytes
      · cases hw : c.has_warned <;> simp [h1, h2, hw, Event.isWarn]
      · simp [h1, h2, Event.isWarn]
  · rw [evalEntry_of_path p i c hk]
    simp only [pathStep, handleOversizePath, exceeds, notAvailable, hk, ha, hne]
    by_cases h1 : p.current_size ≤ 0
    · simp [h1, Event.isWarn]
    · by_cases h2 : p.current_size > c.max_size_bytes
      · cases hw : c.has_warned <;> simp [h1, h2, hw, Event.isWarn]
      · simp [h1, h2, Event.isWarn]

theorem exceeds_congr (c d : FileConfig) (ht : d.type = c.type)
    (hm : d.max_size_bytes = c.max_size_bytes) (size : ℚ) :
    exceeds d size ↔ exceeds c size := by
  simp [exceeds, notAvailable, ht, hm]

theorem evalEntry_type (p : Probe) (i : Nat) (c : FileConfig) :
    (evalEntry p i c).1.type = c.type := by
  rw [evalEntry_frame]

theorem evalEntry_action (p : Probe) (i : Nat) (c : FileConfig) :
    (evalEntry p i c).1.action = c.action := by
  rw [evalEntry_frame]

theorem evalEntry_max_size_bytes (p : Probe) (i : Nat) (c : FileConfig) :
    (evalEntry p i c).1.max_size_bytes = c.max_size_bytes := by
  rw [evalEntry_frame]

theorem entryCycles_frame (i : Nat) (ps : List Probe) (c : FileConfig) :
    (entryCycles i ps c).1.type = c.type ∧ (entryCycles i ps c).1.action = c.action
      ∧ (entryCycles i ps c).1.max_size_bytes = c.max_size_bytes := by
  induction ps generalizing c with
  | nil => simp [entryCycles]
  | cons p ps ih =>
    obtain ⟨h1, h2, h3⟩ := ih (evalEntry p i c).1
    simp only [entryCycles]
    rw [h1, h2, h3, evalEntry_type, evalEntry_action, evalEntry_max_size_bytes]
    exact ⟨rfl, rfl, rfl⟩

theorem entryCycles_warn (i : Nat) (ps : List Probe) (c c0 : FileConfig)
    (ht : c.type = c0.type) (hm : c.max_size_bytes = c0.max_size_bytes)
    (hk : c.type = "file" ∨ c.type = "path") (ha : c.action ≠ "trash") :
    ((entryCycles i ps c).2.map (fun t => (t.filter Event.isWarn).length)).sum
      = episodesFrom c.has_warned
          (ps.map (fun p => decide (exceeds c0 p.current_size))) := by
  induction ps generalizing c with
  | nil => simp [entryCycles, episodesFrom]
  | cons p ps ih =>
    obtain ⟨h1, h2⟩ := evalEntry_warn p i c hk ha
    have hx : decide (exceeds c p.current_size) = decide (exceeds c0 p.current_size) := by
      simp only [decide_eq_decide]
      exact exceeds_congr c0 c ht hm _
    simp only [entryCycles, List.map_cons, List.sum_cons, episodesFrom]
    rw [ih (evalEntry p i c).1 (by rw [evalEntry_type, ht])
      (by rw [evalEntry_max_size_bytes, hm]) (by rw [evalEntry_type]; exact hk)
      (by rw [evalEntry_action]; exact ha), h1, h2, hx]

theorem episodesFrom_all_true (prev : Bool) (xs : List Bool) (h : ∀ x ∈ xs, x = true) :
    episodesFrom prev xs = if xs = [] ∨ prev = true then 0 else 1 := by
  induction xs generalizing prev with
  | nil => simp [episodesFrom]
  | cons x xs ih =>
    have hx : x = true := h x (by simp)
    subst hx
    rw [episodesFrom, ih true (fun y hy => h y (by simp [hy]))]
    cases prev <;> simp

theorem episodesFrom_append (prev : Bool) (xs ys : List Bool) :
    episodesFrom prev (xs ++ ys)
      = episodesFrom prev xs + episodesFrom ((xs.getLast?).getD prev) ys := by
  induction xs generalizing prev with
  | nil => simp [episodesFrom]
  | cons x xs ih =>
    have hl : ((x :: xs).getLast?).getD prev = (xs.getLast?).getD x := by
      cases xs with
      | nil => simp
      | cons y ys =>
        rw [List.getLast?_cons_cons, List.getLast?_eq_getLast _ (List.cons_ne_nil y ys)]
        rfl
    rw [List.cons_append, episodesFrom, episodesFrom, ih x, hl, Nat.add_assoc]

theorem episodesFrom_eq_countP (prev : Bool) (xs : List Bool) :
    episodesFrom prev xs
      = (List.range xs.length).countP
          (fun k => xs.getD k false && !(if k = 0 then prev else xs.getD (k - 1) false)) := by
  induction xs generalizing prev with
  | nil => simp [episodesFrom]
  | cons x xs ih =>
    rw [episodesFrom, ih x, List.length_cons, List.range_succ_eq_map, List.countP_cons,
      List.countP_map, Nat.add_comm]
    congr 1
    · apply List.countP_congr
      intro k _
      cases k with
      | zero => simp
      | succ k => simp

theorem episodes_eq_episodesFrom (xs : List Bool) : episodes xs = episodesFrom false xs := by
  rw [episodesFrom_eq_countP, episodes]
  apply List.countP_congr
  intro k _
  cases k with
  | zero => simp
  | succ k => simp

theorem warningsEmitted_eq_episodes (envs : List (Nat → Probe))
    (file_configs : List FileConfig) (j : Nat) (c : FileConfig)
    (hc : file_configs[j]? = some c) (hk : c.type = "file" ∨ c.type = "path")
    (ha : c.action ≠ "trash") :
    warningsEmitted j (runCycles envs file_configs).2
      = episodesFrom c.has_warned
          (envs.map (fun env => decide (exceeds c (env j).current_size))) := by
  have h := entryCycles_warn j (envs.map (fun env => env j)) c c rfl rfl hk ha
  rw [← runCycles_eventsOf envs file_configs j c hc] at h
  simp only [List.map_map] at h
  simpa [warningsEmitted, Function.comp_def] using h

/-- C1. A Warn entry (of type file or path) that starts with `has_warned = false`
prints, over any finite sequence of `checkAllFiles` passes, as many warnings as there
are exceeded episodes (maximal runs of consecutive cycles whose measured size is
available and strictly greater than the threshold). In particular `N ≥ 1` consecutive
exceeding cycles print exactly one warning, and a cycle that does not exceed followed
by one that does prints a second one. -/
theorem warn_once_per_exceeded_episode (envs : List (Nat → Probe))
    (file_configs : List FileConfig) (j : Nat) (c : FileConfig)
    (hc : file_configs[j]? = some c) (hk : c.type = "file" ∨ c.type = "path")
    (ha : c.action = "warn") (hw : c.has_warned = false) :
    warningsEmitted j (runCycles envs file_configs).2
        = episodes (envs.map (fun env => decide (exceeds c (env j).current_size)))
    ∧ (envs ≠ [] → (∀ env ∈ envs, exceeds c (env j).current_size) →
        warningsEmitted j (runCycles envs file_configs).2 = 1)
    ∧ (∀ drop again : Nat → Probe, envs ≠ [] →
        (∀ env ∈ envs, exceeds c (env j).current_size) →
        ¬ exceeds c (drop j).current_size → exceeds c (again j).current_size →
        warningsEmitted j (runCycles (envs ++ [drop, again]) file_configs).2 = 2) := by
  have hat : c.action ≠ "trash" := by rw [ha]; decide
  refine ⟨?_, ?_, ?_⟩
  · rw [warningsEmitted_eq_episodes envs file_configs j c hc hk hat, hw,
      episodes_eq_episodesFrom]
  · intro hne hall
    rw [warningsEmitted_eq_episodes envs file_configs j c hc hk hat, hw,
      episodesFrom_all_true]
    · simp [hne]
    · intro x hx
      simp only [List.mem_map] at hx
      obtain ⟨env, henv, rfl⟩ := hx
      simpa using hall env henv
  · intro drop again hne hall hdrop hagain
    rw [warningsEmitted_eq_episodes (envs ++ [drop, again]) file_configs j c hc hk hat, hw,
      List.map_append, episodesFrom_append, episodesFrom_all_true]
    · simp [hne, episodesFrom, hdrop, hagain]
    · intro x hx
      simp only [List.mem_map] at hx
      obtain ⟨env, henv, rfl⟩ := hx
      simpa using hall env henv

/-- The scenario of the specification: a file of 150 KB against a limit of 100 KB is
seen twice, then truncated to 50 KB, then grown back to 150 KB: two warnings. -/
theorem warn_once_per_exceeded_episode_witness :
    [FileConfig.mk "data.log" 102400 "100KB" "warn" false "file"][0]?
        = some (FileConfig.mk "data.log" 102400 "100KB" "warn" false "file")
    ∧ warningsEmitted 0
        (runCycles
          [fun _ => ⟨153600, 0, 0⟩, fun _ => ⟨153600, 0, 0⟩, fun _ => ⟨51200, 0, 0⟩,
            fun _ => ⟨153600, 0, 0⟩]
          [FileConfig.mk "data.log" 102400 "100KB" "warn" false "file"]).2 = 2 :=
  ⟨rfl, (warn_once_per_exceeded_episode
    [fun _ => ⟨153600, 0, 0⟩, fun _ => ⟨153600, 0, 0⟩, fun _ => ⟨51200, 0, 0⟩,
      fun _ => ⟨153600, 0, 0⟩]
    [FileConfig.mk "data.log" 102400 "100KB" "warn" false "file"] 0
    (FileConfig.mk "data.log" 102400 "100KB" "warn" false "file") rfl (Or.inl rfl) rfl rfl).1.trans
    (by decide)⟩

/-! ### Cycles that do not exceed -/

theorem not_exceeds_iff (c : FileConfig) (size : ℚ) :
    ¬ exceeds c size ↔ (notAvailable c size ∨ size ≤ c.max_size_bytes) := by
  rw [exceeds, not_and_or, not_not, gt_iff_lt, not_lt]

theorem evalEntry_not_exceeds (p : Probe) (i : Nat) (c : FileConfig)
    (hk : c.type = "file" ∨ c.type = "path") (hx : ¬ exceeds c p.current_size) :
    (evalEntry p i c).1.has_warned = false ∧
    ∀ e ∈ (evalEntry p i c).2, e.isWarn = false ∧ e.isDelete = false := by
  have hne : ("path" : String) ≠ "file" := by decide
  rcases hk with hk | hk
  · rw [evalEntry_of_file p i c hk]
    rw [not_exceeds_iff] at hx
    simp only [notAvailable, hk, if_true] at hx
    simp only [fileStep, hk]
    by_cases h1 : p.current_size < 0
    · simp [h1, Event.isWarn, Event.isDelete]
    · have h2 : ¬ p.current_size > c.max_size_bytes := by
        rcases hx with hx | hx
        · exact absurd hx h1
        · exact not_lt.mpr hx
      simp [h1, h2, Event.isWarn, Event.isDelete]
  · rw [evalEntry_of_path p i c hk]
    rw [not_exceeds_iff] at hx
    simp only [notAvailable, hk, hne, if_false] at hx
    simp only [pathStep, hk]
    by_cases h1 : p.current_size ≤ 0
    · simp [h1, Event.isWarn, Event.isDelete]
    · have h2 : ¬ p.current_size > c.max_size_bytes := by
        rcases hx with hx | hx
        · exact absurd hx h1
        · exact not_lt.mpr hx
      simp [h1, h2, Event.isWarn, Event.isDelete]

theorem mem_eventsOf (j : Nat) (t : List Event) (e : Event) :
    e ∈ eventsOf j t ↔ e ∈ t ∧ e.index = j := by
  simp [eventsOf]

/-- C2. In a cycle in which the measurement of an entry is NotAvailable (file size
negative, directory total 0 or less) or is less than or equal to the threshold (equal
included), `checkAllFiles` neither warns about nor removes the entry, and leaves
`has_warned = false`, whatever the action and the previous `has_warned`. -/
theorem not_exceeded_clears_flag (env : Nat → Probe) (file_configs : List FileConfig)
    (j : Nat) (c : FileConfig) (hc : file_configs[j]? = some c)
    (hk : c.type = "file" ∨ c.type = "path")
    (h : notAvailable c (env j).current_size ∨ (env j).current_size ≤ c.max_size_bytes) :
    (∀ e ∈ (checkAllFiles env file_configs).2, e.index = j →
        e.isWarn = false ∧ e.isDelete = false)
    ∧ ((checkAllFiles env file_configs).1[j]?).map FileConfig.has_warned = some false := by
  obtain ⟨h1, h2⟩ := evalEntry_not_exceeds (env j) j c hk ((not_exceeds_iff _ _).mpr h)
  refine ⟨?_, ?_⟩
  · intro e he hj
    apply h2
    rw [← checkAllFiles_eventsOf env file_configs j c hc, mem_eventsOf]
    exact ⟨he, hj⟩
  · rw [checkAllFiles_getElem?, hc]
    simp [h1]

/-- A directory entry in Trash mode with `has_warned = true` whose total is exactly the
threshold: nothing is done and the flag is cleared. -/
theorem not_exceeded_clears_flag_witness :
    [FileConfig.mk "logs" 1048576 "1MB" "trash" true "path"][0]?
        = some (FileConfig.mk "logs" 1048576 "1MB" "trash" true "path")
    ∧ (∀ e ∈ (checkAllFiles (fun _ => ⟨1048576, 0, 0⟩)
          [FileConfig.mk "logs" 1048576 "1MB" "trash" true "path"]).2, e.index = 0 →
        e.isWarn = false ∧ e.isDelete = false)
    ∧ ((checkAllFiles (fun _ => ⟨1048576, 0, 0⟩)
          [FileConfig.mk "logs" 1048576 "1MB" "trash" true "path"]).1[0]?).map
        FileConfig.has_warned = some false :=
  ⟨rfl, not_exceeded_clears_flag (fun _ => ⟨1048576, 0, 0⟩)
    [FileConfig.mk "logs" 1048576 "1MB" "trash" true "path"] 0
    (FileConfig.mk "logs" 1048576 "1MB" "trash" true "path") rfl (Or.inr rfl)
    (Or.inr (by decide))⟩

/-! ### Trash entries -/

theorem evalEntry_trash (p : Probe) (i : Nat) (c : FileConfig)
    (hk : c.type = "file" ∨ c.type = "path") (ha : c.action = "trash")
    (hx : exceeds c p.current_size) :
    (evalEntry p i c).1.has_warned = (removalSucceeds c p || c.has_warned) ∧
    (evalEntry p i c).2.filter Event.isDelete = [removalEvent c i (removalSucceeds c p)] := by
  have hne : ("path" : String) ≠ "file" := by decide
  rcases hk with hk | hk
  · rw [evalEntry_of_file p i c hk]
    simp only [exceeds, notAvailable, hk, if_true] at hx
    obtain ⟨h1, h2⟩ := hx
    simp only [fileStep, handleOversizeFile, removalSucceeds, removalEvent, hk, ha]
    cases hd : deleteFileWithSystem p.delete_result <;>
      simp [h1, h2, Event.isDelete]
  · rw [evalEntry_of_path p i c hk]
    simp only [exceeds, notAvailable, hk, hne, if_false] at hx
    obtain ⟨h1, h2⟩ := hx
    simp only [pathStep, handleOversizePath, removalSucceeds, removalEvent, hk, ha, hne]
    cases hd : deleteDirectoryWithSystem p.delete_result p.create_result <;>
      simp [h1, h2, Event.isDelete]

theorem checkAllFiles_trash (env : Nat → Probe) (file_configs : List FileConfig)
    (j : Nat) (c : FileConfig) (hc : file_configs[j]? = some c)
    (hk : c.type = "file" ∨ c.type = "path") (ha : c.action = "trash")
    (hx : exceeds c (env j).current_size) :
    ((checkAllFiles env file_configs).1[j]?).map FileConfig.has_warned
        = some (removalSucceeds c (env j) || c.has_warned) ∧
    (eventsOf j (checkAllFiles env file_configs).2).filter Event.isDelete
        = [removalEvent c j (removalSucceeds c (env j))] := by
  obtain ⟨h1, h2⟩ := evalEntry_trash (env j) j c hk ha hx
  refine ⟨?_, ?_⟩
  · rw [checkAllFiles_getElem?, hc]
    simp [h1]
  · rw [checkAllFiles_eventsOf env file_configs j c hc, h2]

/-- C3. For a Trash entry whose measured size exceeds the threshold in a cycle, the
removal (file delete, or directory delete followed by recreate) is attempted; if it
reports success `has_warned` is true after the cycle; if it reports failure (a
directory deleted but not recreated included) `has_warned` keeps the value it had,
and the removal is attempted again in the next cycle in which the size exceeds,
whether that is the cycle that follows or a later one. -/
theorem trash_flag_follows_removal (env : Nat → Probe) (later : List (Nat → Probe))
    (next : Nat → Probe) (file_configs : List FileConfig) (j : Nat) (c : FileConfig)
    (hc : file_configs[j]? = some c) (hk : c.type = "file" ∨ c.type = "path")
    (ha : c.action = "trash") (hx : exceeds c (env j).current_size) :
    (eventsOf j (checkAllFiles env file_configs).2).filter Event.isDelete
        = [removalEvent c j (removalSucceeds c (env j))]
    ∧ (removalSucceeds c (env j) = true →
        ((checkAllFiles env file_configs).1[j]?).map FileConfig.has_warned = some true)
    ∧ (removalSucceeds c (env j) = false →
        ((checkAllFiles env file_configs).1[j]?).map FileConfig.has_warned
            = some c.has_warned
        ∧ (exceeds c (next j).current_size →
            (eventsOf j
                (checkAllFiles next (runCycles (env :: later) file_configs).1).2).filter
              Event.isDelete = [removalEvent c j (removalSucceeds c (next j))]))
    ∧ (c.type = "path" → (env j).delete_result = 0 → (env j).create_result ≠ 0 →
        removalSucceeds c (env j) = false) := by
  obtain ⟨h1, h2⟩ := checkAllFiles_trash env file_configs j c hc hk ha hx
  refine ⟨h2, ?_, ?_, ?_⟩
  · intro hs
    rw [h1, hs]; rfl
  · intro hs
    refine ⟨by rw [h1, hs]; rfl, ?_⟩
    intro hx2
    have hc2 := runCycles_getElem? (env :: later) file_configs j c hc
    obtain ⟨ht, hact, hm⟩ := entryCycles_frame j ((env :: later).map (fun e => e j)) c
    have h3 := (checkAllFiles_trash next _ j _ hc2 (by rw [ht]; exact hk)
      (by rw [hact]; exact ha) ((exceeds_congr c _ ht hm _).mpr hx2)).2
    rw [h3]
    simp only [removalEvent, removalSucceeds, ht]
  · intro hp hd hcr
    have hne : ("path" : String) ≠ "file" := by decide
    simp [removalSucceeds, hp, hne, deleteDirectoryWithSystem, hd, hcr]

/-- A directory of 2 MB against a limit of 1 MB whose delete succeeds and whose
recreate fails: the flag keeps its value, and the removal is attempted again when the
directory, found empty in the cycle that follows, holds 2 MB again in the one after
it. -/
theorem trash_flag_follows_removal_witness :
    [FileConfig.mk "logs" 1048576 "1MB" "trash" false "path"][0]?
        = some (FileConfig.mk "logs" 1048576 "1MB" "trash" false "path")
    ∧ exceeds (FileConfig.mk "logs" 1048576 "1MB" "trash" false "path") 2097152
    ∧ removalSucceeds (FileConfig.mk "logs" 1048576 "1MB" "trash" false "path")
        ⟨2097152, 0, 1⟩ = false
    ∧ ((checkAllFiles (fun _ => ⟨2097152, 0, 1⟩)
          [FileConfig.mk "logs" 1048576 "1MB" "trash" false "path"]).1[0]?).map
        FileConfig.has_warned = some false
    ∧ (eventsOf 0
          (checkAllFiles (fun _ => ⟨2097152, 0, 0⟩)
            (runCycles [fun _ => ⟨2097152, 0, 1⟩, fun _ => ⟨0, 0, 0⟩]
              [FileConfig.mk "logs" 1048576 "1MB" "trash" false "path"]).1).2).filter
        Event.isDelete = [Event.deleteDir 0 true] :=
  ⟨rfl, by decide, by decide,
    ((trash_flag_follows_removal (fun _ => ⟨2097152, 0, 1⟩) [fun _ => ⟨0, 0, 0⟩]
      (fun _ => ⟨2097152, 0, 0⟩)
      [FileConfig.mk "logs" 1048576 "1MB" "trash" false "path"] 0
      (FileConfig.mk "logs" 1048576 "1MB" "trash" false "path") rfl (Or.inr rfl) rfl
      (by decide)).2.2.1 (by decide)).1,
    (((trash_flag_follows_removal (fun _ => ⟨2097152, 0, 1⟩) [fun _ => ⟨0, 0, 0⟩]
      (fun _ => ⟨2097152, 0, 0⟩)
      [FileConfig.mk "logs" 1048576 "1MB" "trash" false "path"] 0
      (FileConfig.mk "logs" 1048576 "1MB" "trash" false "path") rfl (Or.inr rfl) rfl
      (by decide)).2.2.1 (by decide)).2 (by decide)).trans (by decide)⟩

/-- C4, as stated, fails: a Trash entry of type file, 150 bytes against a limit of 100.
The first cycle removes it successfully and sets `has_warned`; in the second cycle the
size is still above the limit and the removal is performed again. -/
theorem trash_repeats_after_success :
    (checkAllFiles (fun _ => ⟨150, 0, 0⟩)
        [FileConfig.mk "big.log" 100 "100" "trash" false "file"]).1
      = [FileConfig.mk "big.log" 100 "100" "trash" true "file"]
    ∧ (runCycles [fun _ => ⟨150, 0, 0⟩, fun _ => ⟨150, 0, 0⟩]
        [FileConfig.mk "big.log" 100 "100" "trash" false "file"]).2
      = [[Event.measureFile 0 150, Event.deleteFile 0 true],
         [Event.measureFile 0 150, Event.deleteFile 0 true]] := by
  decide

/-- C4, amended. A Trash entry attempts the removal in every cycle in which the
measured size exceeds the threshold, whatever the value of `has_warned` (so also after
a removal that succeeded). Only a Warn entry is held back by `has_warned`: with
`has_warned = true`, a cycle that still exceeds prints no warning and leaves the flag
set. -/
theorem trash_attempted_every_exceeded_cycle (env : Nat → Probe)
    (file_configs : List FileConfig) (j : Nat) (c : FileConfig)
    (hc : file_configs[j]? = some c) (hk : c.type = "file" ∨ c.type = "path")
    (hx : exceeds c (env j).current_size) :
    (c.action = "trash" →
        (eventsOf j (checkAllFiles env file_configs).2).filter Event.isDelete
          = [removalEvent c j (removalSucceeds c (env j))])
    ∧ (c.action = "warn" → c.has_warned = true →
        (eventsOf j (checkAllFiles env file_configs).2).filter Event.isWarn = []
        ∧ ((checkAllFiles env file_configs).1[j]?).map FileConfig.has_warned
            = some true) := by
  refine ⟨fun ha => (checkAllFiles_trash env file_configs j c hc hk ha hx).2, ?_⟩
  intro ha hw
  have hat : c.action ≠ "trash" := by rw [ha]; decide
  obtain ⟨h1, h2⟩ := evalEntry_warn (env j) j c hk hat
  refine ⟨?_, ?_⟩
  · rw [checkAllFiles_eventsOf env file_configs j c hc]
    apply List.eq_nil_of_length_eq_zero
    rw [h2, hw]; simp
  · rw [checkAllFiles_getElem?, hc]
    simp [h1, hx]

/-- A file entry in Trash mode whose flag is already set, 150 bytes against a limit of
100: the removal is attempted again. -/
theorem trash_attempted_every_exceeded_cycle_witness :
    [FileConfig.mk "big.log" 100 "100" "trash" true "file"][0]?
        = some (FileConfig.mk "big.log" 100 "100" "trash" true "file")
    ∧ exceeds (FileConfig.mk "big.log" 100 "100" "trash" true "file") 150
    ∧ (eventsOf 0 (checkAllFiles (fun _ => ⟨150, 0, 0⟩)
          [FileConfig.mk "big.log" 100 "100" "trash" true "file"]).2).filter Event.isDelete
        = [Event.deleteFile 0 true] :=
  ⟨rfl, by decide,
    ((trash_attempted_every_exceeded_cycle (fun _ => ⟨150, 0, 0⟩)
      [FileConfig.mk "big.log" 100 "100" "trash" true "file"] 0
      (FileConfig.mk "big.log" 100 "100" "trash" true "file") rfl (Or.inl rfl)
      (by decide)).1 rfl).trans (by decide)⟩

/-! ### The percentage quotient -/

theorem evalEntry_zero_threshold (p : Probe) (i : Nat) (c : FileConfig)
    (hm : c.max_size_bytes = 0) (h : c.type ≠ "file" ∨ p.current_size ≠ 0) :
    ∀ e ∈ (evalEntry p i c).2, e.isPercentage = false := by
  by_cases hf : c.type = "file"
  · have hs : p.current_size ≠ 0 := by
      rcases h with h | h
      · exact absurd hf h
      · exact h
    rw [evalEntry_of_file p i c hf]
    simp only [fileStep, handleOversizeFile, hf, hm]
    by_cases h1 : p.current_size < 0
    · simp [h1, Event.isPercentage]
    · have h2 : (p.current_size : Double) > 0 :=
        WithTop.coe_pos.mpr (lt_of_le_of_ne (not_lt.mp h1) (Ne.symm hs))
      simp only [h1, h2]
      split_ifs <;> simp [Event.isPercentage]
  · by_cases hp : c.type = "path"
    · rw [evalEntry_of_path p i c hp]
      simp only [pathStep, handleOversizePath, hp, hm]
      by_cases h1 : p.current_size ≤ 0
      · simp [h1, Event.isPercentage]
      · have h2 : (p.current_size : Double) > 0 := WithTop.coe_pos.mpr (not_le.mp h1)
        simp only [h1, h2]
        split_ifs <;> simp [Event.isPercentage]
    · rw [evalEntry_of_other p i c hf hp]
      simp

/-- C6, as stated, fails: the quotient is not guarded. A file entry whose threshold is 0
(what a size string without a number resolves to) and whose file is empty evaluates
`0 / 0`. -/
theorem percentage_divides_by_zero :
    (checkAllFiles (fun _ => ⟨0, 0, 0⟩)
        [FileConfig.mk "empty.log" 0 "none" "warn" false "file"]).2
      = [Event.measureFile 0 0, Event.percentage 0 0 0] := by
  decide

/-- C6, amended. With a threshold of 0 the percentage quotient is not evaluated for an
entry of type path, whatever the measured size, nor for an entry of type file whose
measured size is not 0: a size of 0 or less is NotAvailable for a directory, a negative
size is NotAvailable for a file, and a positive size exceeds. -/
theorem zero_threshold_skips_percentage (env : Nat → Probe)
    (file_configs : List FileConfig) (j : Nat) (c : FileConfig)
    (hc : file_configs[j]? = some c) (hm : c.max_size_bytes = 0)
    (h : c.type = "path" ∨ (env j).current_size ≠ 0) :
    ∀ e ∈ (checkAllFiles env file_configs).2, e.index = j → e.isPercentage = false := by
  intro e he hj
  have hne : ("path" : String) ≠ "file" := by decide
  apply evalEntry_zero_threshold (env j) j c hm
  · rcases h with h | h
    · left; rw [h]; exact hne
    · right; exact h
  · rw [← checkAllFiles_eventsOf env file_configs j c hc, mem_eventsOf]
    exact ⟨he, hj⟩

/-- A directory entry with threshold 0 and an empty directory: no quotient. -/
theorem zero_threshold_skips_percentage_witness :
    [FileConfig.mk "logs" 0 "none" "warn" false "path"][0]?
        = some (FileConfig.mk "logs" 0 "none" "warn" false "path")
    ∧ ∀ e ∈ (checkAllFiles (fun _ => ⟨0, 0, 0⟩)
          [FileConfig.mk "logs" 0 "none" "warn" false "path"]).2,
        e.index = 0 → e.isPercentage = false :=
  ⟨rfl, zero_threshold_skips_percentage (fun _ => ⟨0, 0, 0⟩)
    [FileConfig.mk "logs" 0 "none" "warn" false "path"] 0
    (FileConfig.mk "logs" 0 "none" "warn" false "path") rfl rfl (Or.inl rfl)⟩

/-! ### Order of the evaluations -/

theorem fileStep_type (p : Probe) (i : Nat) (c : FileConfig) :
    (fileStep p i c).1.type = c.type := by
  simp only [fileStep, handleOversizeFile]
  split_ifs <;> rfl

theorem fileStep_evaluations (p : Probe) (i : Nat) (c : FileConfig) :
    evaluations (fileStep p i c).2 = if c.type = "file" then [("file", i)] else [] := by
  simp only [fileStep, handleOversizeFile]
  split_ifs <;> simp_all [evaluations]

theorem pathStep_evaluations (p : Probe) (i : Nat) (c : FileConfig) :
    evaluations (pathStep p i c).2 = if c.type = "path" then [("path", i)] else [] := by
  simp only [pathStep, handleOversizePath]
  split_ifs <;> simp_all [evaluations]

theorem toLower_of_isNumChar (c : Char) (h : isNumChar c = true) : c.toLower = c := by
  have hc : c.isDigit = true ∨ c = '.' := by
    simpa [isNumChar] using h
  rcases hc with hc | hc
  · simp only [Char.isDigit, Bool.and_eq_true, decide_eq_true_eq] at hc
    have h2 : c.val.toNat ≤ 57 := hc.2
    simp only [Char.toLower, Char.toNat]
    rw [if_neg]
    omega
  · subst hc; decide

theorem scanDigits_append (ds rest : List Char) (acc n : Nat)
    (hd : ∀ c ∈ ds, c.isDigit = true) (hr : ∀ c, rest.head? = some c → c.isDigit = false) :
    scanDigits (ds ++ rest) acc n
      = (acc * 10 ^ ds.length + digitsValue ds, n + ds.length, rest) := by
  induction ds generalizing acc n with
  | nil =>
    cases rest with
    | nil => simp [scanDigits, digitsValue]
    | cons r rs =>
      have := hr r rfl
      simp [scanDigits, digitsValue, this]
  | cons d ds ih =>
    have h1 : d.isDigit = true := hd d (by simp)
    rw [List.cons_append, scanDigits, if_pos h1,
      ih _ _ (fun c hc => hd c (by simp [hc]))]
    simp only [digitsValue, List.length_cons, pow_succ]
    refine Prod.ext ?_ (Prod.ext ?_ rfl)
    · simp only; ring
    · simp only; omega

theorem stod_int (ds : List Char) (hd : ∀ c ∈ ds, c.isDigit = true) (hne : ds ≠ []) :
    stod ds = toDouble (digitsValue ds : ℚ) := by
  have h := scanDigits_append ds [] 0 0 hd (by simp)
  rw [List.append_nil] at h
  have hl : ds.length ≠ 0 := by simpa using hne
  simp [stod, h, hl]

theorem stod_frac (ip fp : List Char) (hi : ∀ c ∈ ip, c.isDigit = true)
    (hf : ∀ c ∈ fp, c.isDigit = true) (hne : ip ≠ [] ∨ fp ≠ []) :
    stod (ip ++ '.' :: fp) = toDouble (decimalValue ip fp) := by
  have h1 := scanDigits_append ip ('.' :: fp) 0 0 hi (by
    intro c hc
    simp at hc
    subst hc
    decide)
  have h2 := scanDigits_append fp [] 0 0 hf (by simp)
  rw [List.append_nil] at h2
  have hl : ¬ (ip.length + fp.length = 0) := by
    rcases hne with h | h
    · have : ip.length ≠ 0 := by simpa using h
      omega
    · have : fp.length ≠ 0 := by simpa using h
      omega
  simp only [stod, h1, h2, Nat.zero_mul, Nat.zero_add, if_neg hl, decimalValue]

theorem unitExponent_head (u : String) (k : Nat) (hu : unitExponent u = some k) :
    ∀ c, u.data.head? = some c → isNumChar c = false := by
  intro c hc
  simp only [unitExponent] at hu
  split_ifs at hu <;> (try rcases ‹_ ∨ _› with h | h) <;> subst h <;>
    simp at hc <;> (subst hc; decide)

theorem unit_head_not_num (unit : String) (k : Nat)
    (hu : unitExponent (toLower unit) = some k) :
    ∀ c, unit.data.head? = some c → isNumChar c = false := by
  intro c hc
  by_contra hnum
  have hnum : isNumChar c = true := by simpa using hnum
  have hlow : (toLower unit).data.head? = some c := by
    cases hd : unit.data with
    | nil => simp [hd] at hc
    | cons x xs =>
      simp [hd] at hc
      subst hc
      simp [toLower, hd, toLower_of_isNumChar x hnum]
  rw [unitExponent_head _ k hu c hlow] at hnum
  exact Bool.false_ne_true hnum

/-- What `parseSizeString` passes to `std::stod` holds digits and dots only. -/
theorem num_str_chars (size_str : String) :
    ∀ c ∈ size_str.data.takeWhile isNumChar, c.isDigit = true ∨ c = '.' := by
  intro c hc
  simpa [isNumChar] using List.mem_takeWhile_imp hc

theorem span_num_unit (num unit : List Char) (hn : ∀ c ∈ num, isNumChar c = true)
    (hu : ∀ c, unit.head? = some c → isNumChar c = false) :
    (num ++ unit).takeWhile isNumChar = num ∧ (num ++ unit).dropWhile isNumChar = unit := by
  rw [List.takeWhile_append_of_pos hn, List.dropWhile_append_of_pos hn]
  cases unit with
  | nil => simp
  | cons c cs => simp [hu c rfl]

theorem twoPow_pos (e : Int) : 0 < twoPow e := by
  unfold twoPow
  split_ifs <;> positivity

theorem toDouble_nonneg (q d : ℚ) (h : toDouble q = some d) : 0 ≤ d := by
  unfold toDouble at h
  simp only at h
  split_ifs at h
  simp only [Option.some.injEq] at h
  subst h
  have := twoPow_pos (ulpExponent q 2045 (-1074))
  unfold nearestDouble
  positivity

theorem mul1024_coe (q : ℚ) :
    mul1024 (q : Double)
      = if q * 1024 < twoPow 1024 then ((q * 1024 : ℚ) : Double) else ⊤ := rfl

theorem mul1024_top : mul1024 ⊤ = ⊤ := rfl

theorem toDouble_lt (q d : ℚ) (h : toDouble q = some d) : d < twoPow 1024 := by
  unfold toDouble at h
  simp only at h
  split_ifs at h with h1
  simp only [Option.some.injEq] at h
  subst h
  exact not_le.mp h1

theorem mul1024_iterate (d : ℚ) (hd : 0 ≤ d) (hlt : d < twoPow 1024) (k : ℕ) :
    mul1024^[k] (d : Double)
      = if d * 1024 ^ k < twoPow 1024 then ((d * 1024 ^ k : ℚ) : Double) else ⊤ := by
  induction k with
  | zero =>
    simp only [Function.iterate_zero, id_eq, pow_zero, mul_one]
    rw [if_pos hlt]
  | succ k ih =>
    rw [Function.iterate_succ_apply', ih]
    have hk : d * 1024 ^ k ≤ d * 1024 ^ (k + 1) := by
      rw [pow_succ, ← mul_assoc]
      have : 0 ≤ d * 1024 ^ k := by positivity
      linarith
    have he : d * 1024 ^ (k + 1) = d * 1024 ^ k * 1024 := by ring
    by_cases h1 : d * 1024 ^ k < twoPow 1024
    · rw [if_pos h1, mul1024_coe, he]
    · rw [if_neg h1, mul1024_top, if_neg]
      intro h2
      exact h1 (lt_of_le_of_lt hk h2)

theorem parseSizeString_eq (size_str : String) (v : ℚ) (k : Nat)
    (hne : size_str.data ≠ [])
    (hv : stod (size_str.data.takeWhile isNumChar) = some v)
    (hk : unitExponent (toLower ⟨size_str.data.dropWhile isNumChar⟩) = some k) :
    parseSizeString size_str = mul1024^[k] (v : Double) := by
  simp only [parseSizeString, if_neg hne, hv]
  simp only [unitExponent] at hk
  split_ifs at hk with h1 h2 h3 h4 h5 <;> simp only [Option.some.injEq] at hk <;>
    subst hk <;> simp only [*, if_true, if_false] <;> rfl

theorem parseSizeString_of_stod_none (size_str : String)
    (h : stod (size_str.data.takeWhile isNumChar) = none) : parseSizeString size_str = 0 := by
  simp only [parseSizeString, h]
  split_ifs <;> rfl

theorem parseSizeString_numeral (num : List Char) (unit : String) (n : ℚ) (k : ℕ)
    (hne : num ≠ []) (hn : ∀ c ∈ num, isNumChar c = true)
    (hs : stod num = toDouble n) (hu : unitExponent (toLower unit) = some k) :
    parseSizeString ⟨num ++ unit.data⟩ = thresholdOf n k := by
  obtain ⟨h1, h2⟩ := span_num_unit num unit.data hn (unit_head_not_num unit k hu)
  cases hd : toDouble n with
  | none =>
    unfold thresholdOf
    rw [hd]
    apply parseSizeString_of_stod_none
    rw [h1, hs, hd]
  | some d =>
    unfold thresholdOf
    rw [hd]
    show parseSizeString _
      = if d * 1024 ^ k < twoPow 1024 then ((d * 1024 ^ k : ℚ) : Double) else ⊤
    rw [← mul1024_iterate d (toDouble_nonneg n d hd) (toDouble_lt n d hd) k]
    apply parseSizeString_eq
    · show num ++ unit.data ≠ []
      intro h
      exact hne (List.append_eq_nil.mp h).1
    · rw [h1, hs, hd]
    · rw [h2]; exact hu

theorem floor_le_roundHalfEven (q : ℚ) : ⌊q⌋₊ ≤ roundHalfEven q := by
  simp only [roundHalfEven]
  split_ifs <;> omega

theorem roundHalfEven_le_floor_succ (q : ℚ) : roundHalfEven q ≤ ⌊q⌋₊ + 1 := by
  simp only [roundHalfEven]
  split_ifs <;> omega

theorem roundHalfEven_le_of_lt (q : ℚ) (n : ℕ) (h : q < n) : roundHalfEven q ≤ n := by
  have h1 := roundHalfEven_le_floor_succ q
  rcases le_or_lt 0 q with h0 | h0
  · have h2 : ⌊q⌋₊ < n := (Nat.floor_lt h0).mpr h
    omega
  · have h2 : ⌊q⌋₊ = 0 := Nat.floor_of_nonpos h0.le
    have h3 : roundHalfEven q = 0 := by
      simp only [roundHalfEven, h2]
      rw [if_pos]
      push_cast
      linarith
    omega

theorem le_roundHalfEven_of_le (q : ℚ) (n : ℕ) (h : (n : ℚ) ≤ q) : n ≤ roundHalfEven q := by
  have h1 := floor_le_roundHalfEven q
  have h2 : n ≤ ⌊q⌋₊ := Nat.le_floor h
  omega

/-- The rounding is to a nearest natural number. -/
theorem roundHalfEven_near (q : ℚ) (h0 : 0 ≤ q) : |(roundHalfEven q : ℚ) - q| ≤ 1 / 2 := by
  have h1 : (⌊q⌋₊ : ℚ) ≤ q := Nat.floor_le h0
  have h2 : q < ⌊q⌋₊ + 1 := Nat.lt_floor_add_one q
  rw [abs_le]
  simp only [roundHalfEven]
  split_ifs <;> push_cast <;> constructor <;> linarith

theorem twoPow_eq_zpow (e : Int) : twoPow e = (2 : ℚ) ^ e := by
  unfold twoPow
  split_ifs with h
  · have h1 : e = (e.toNat : ℤ) := (Int.toNat_of_nonneg h).symm
    conv_rhs => rw [h1]
    rw [zpow_natCast]
    push_cast
    rfl
  · have h1 : e = -((-e).toNat : ℤ) := by
      rw [Int.toNat_of_nonneg (by omega)]
      ring
    conv_rhs => rw [h1]
    rw [zpow_neg, zpow_natCast]
    push_cast
    rw [one_div]

theorem twoPow_add (a b : Int) : twoPow (a + b) = twoPow a * twoPow b := by
  rw [twoPow_eq_zpow, twoPow_eq_zpow, twoPow_eq_zpow, zpow_add₀ (by norm_num)]

theorem twoPow_le (a b : Int) (h : a ≤ b) : twoPow a ≤ twoPow b := by
  rw [twoPow_eq_zpow, twoPow_eq_zpow]
  exact zpow_le_zpow_right₀ (by norm_num) h

theorem twoPow_natCast (n : ℕ) : twoPow n = (2 : ℚ) ^ n := by
  rw [twoPow_eq_zpow, zpow_natCast]

/-- The test `ltTwoPow` is the comparison with the power of two. -/
theorem ltTwoPow_iff (q : ℚ) (h0 : 0 ≤ q) (x : Int) : ltTwoPow q x = true ↔ q < twoPow x := by
  have hnum : (0 : ℤ) ≤ q.num := Rat.num_nonneg.mpr h0
  have hden : (0 : ℚ) < q.den := by exact_mod_cast q.den_pos
  have hq : q = (q.num.toNat : ℚ) / q.den := by
    have h1 : ((q.num.toNat : ℤ) : ℚ) = (q.num : ℚ) := by
      rw [Int.toNat_of_nonneg hnum]
    have h2 : ((q.num.toNat : ℕ) : ℚ) = ((q.num.toNat : ℤ) : ℚ) := by push_cast; rfl
    rw [h2, h1]
    exact (Rat.num_div_den q).symm
  unfold ltTwoPow twoPow
  rw [decide_eq_true_iff]
  split_ifs with h
  · have h1 : (-x).toNat = 0 := Int.toNat_eq_zero.mpr (by omega)
    rw [h1, pow_zero, mul_one]
    conv_rhs => rw [hq]
    rw [div_lt_iff₀ hden]
    constructor
    · intro hh
      have : ((q.num.toNat : ℕ) : ℚ) < ((q.den * 2 ^ x.toNat : ℕ) : ℚ) := by exact_mod_cast hh
      push_cast at this ⊢
      linarith
    · intro hh
      have : ((q.num.toNat : ℕ) : ℚ) < ((q.den * 2 ^ x.toNat : ℕ) : ℚ) := by
        push_cast at hh ⊢
        linarith
      exact_mod_cast this
  · have h1 : x.toNat = 0 := Int.toNat_eq_zero.mpr (by omega)
    rw [h1, pow_zero, mul_one]
    conv_rhs => rw [hq]
    have hp : (0 : ℚ) < ((2 ^ (-x).toNat : ℕ) : ℚ) := by positivity
    rw [div_lt_div_iff₀ hden hp, one_mul]
    constructor
    · intro hh
      exact_mod_cast hh
    · intro hh
      exact_mod_cast hh

/-- The search of `ulpExponent` ends at the least exponent from `pe` on, within the fuel,
under whose 53-bit power `q` lies. -/
theorem ulpExponent_spec (q : ℚ) (h0 : 0 ≤ q) (fuel : ℕ) (pe : Int) :
    pe ≤ ulpExponent q fuel pe ∧ ulpExponent q fuel pe ≤ pe + fuel
    ∧ (ulpExponent q fuel pe < pe + fuel → q < twoPow (ulpExponent q fuel pe + 53))
    ∧ (pe < ulpExponent q fuel pe → twoPow (ulpExponent q fuel pe + 52) ≤ q) := by
  induction fuel generalizing pe with
  | zero =>
    unfold ulpExponent
    simp
  | succ n ih =>
    unfold ulpExponent
    by_cases h : ltTwoPow q (pe + 53) = true
    · rw [if_pos h]
      refine ⟨le_refl _, by push_cast; omega, fun _ => (ltTwoPow_iff q h0 _).mp h, ?_⟩
      intro hh
      exact absurd hh (lt_irrefl _)
    · rw [if_neg h]
      obtain ⟨i1, i2, i3, i4⟩ := ih (pe + 1)
      refine ⟨by omega, by push_cast; omega, ?_, ?_⟩
      · intro hh
        exact i3 (by push_cast at hh; omega)
      · intro _
        rcases lt_or_eq_of_le i1 with h1 | h1
        · exact i4 h1
        · rw [← h1]
          have h2 : ¬ q < twoPow (pe + 53) := fun hh => h ((ltTwoPow_iff q h0 _).mpr hh)
          have h3 : pe + 1 + 52 = pe + 53 := by ring
          rw [h3]
          exact not_lt.mp h2

/-- What `toDouble` returns is a double next to `q`: a multiple `m * 2 ^ pe` of the unit
in the last place of the binade of `q`, with `m` of at most 53 bits (or `2 ^ 53`, the
first double of the next binade), `pe` from `-1074` to `971`, below `2 ^ 1024`, and no
further from `q` than half that unit. -/
theorem toDouble_near (q d : ℚ) (h0 : 0 ≤ q) (h : toDouble q = some d) :
    ∃ (m : ℕ) (pe : Int), d = m * twoPow pe ∧ -1074 ≤ pe ∧ pe ≤ 971 ∧ m ≤ 2 ^ 53
      ∧ (pe = -1074 ∨ twoPow (pe + 52) ≤ q)
      ∧ |d - q| ≤ twoPow pe / 2 ∧ d < twoPow 1024 := by
  have hlt := toDouble_lt q d h
  unfold toDouble at h
  simp only at h
  split_ifs at h
  simp only [Option.some.injEq] at h
  obtain ⟨s1, s2, s3, s4⟩ := ulpExponent_spec q h0 2045 (-1074)
  have hpos := twoPow_pos (ulpExponent q 2045 (-1074))
  have hd : d = (roundHalfEven (q / twoPow (ulpExponent q 2045 (-1074))) : ℚ)
      * twoPow (ulpExponent q 2045 (-1074)) := by
    rw [← h]
    unfold nearestDouble
    rfl
  refine ⟨roundHalfEven (q / twoPow (ulpExponent q 2045 (-1074))),
    ulpExponent q 2045 (-1074), hd, s1, by push_cast at s2; omega, ?_, ?_, ?_, hlt⟩
  · rcases lt_or_eq_of_le s2 with hh | hh
    · have h1 := s3 hh
      rw [twoPow_add] at h1
      have h2 : q / twoPow (ulpExponent q 2045 (-1074)) < ((2 ^ 53 : ℕ) : ℚ) := by
        rw [div_lt_iff₀ hpos]
        have h3 : twoPow 53 = (2 : ℚ) ^ 53 := twoPow_natCast 53
        rw [h3] at h1
        push_cast
        linarith
      exact roundHalfEven_le_of_lt _ _ h2
    · have h1 : twoPow 1024 = twoPow (ulpExponent q 2045 (-1074)) * 2 ^ 53 := by
        have h2 : (1024 : Int) = ulpExponent q 2045 (-1074) + 53 := by
          rw [hh]; norm_num
        rw [h2, twoPow_add]
        congr 1
        exact twoPow_natCast 53
      rw [h1, hd, mul_comm] at hlt
      have h2 := lt_of_mul_lt_mul_left hlt hpos.le
      have h3 : (roundHalfEven (q / twoPow (ulpExponent q 2045 (-1074))) : ℚ)
          < ((2 ^ 53 : ℕ) : ℚ) := by
        push_cast
        exact h2
      exact le_of_lt (by exact_mod_cast h3)
  · rcases lt_or_eq_of_le s1 with hh | hh
    · right; exact s4 hh
    · left; exact hh.symm
  · have h1 := roundHalfEven_near (q / twoPow (ulpExponent q 2045 (-1074)))
      (div_nonneg h0 hpos.le)
    rw [abs_le] at h1 ⊢
    have h2 : q = q / twoPow (ulpExponent q 2045 (-1074))
        * twoPow (ulpExponent q 2045 (-1074)) := by
      field_simp
    rw [hd]
    constructor
    · nlinarith [h1.1, h1.2]
    · nlinarith [h1.1, h1.2]

/-- The conversion reports a range error only outside the range of `double`: from half a
unit in the last place under `2 ^ 1024` on, or under the least normal double
`2 ^ (-1022)`. -/
theorem toDouble_none (q : ℚ) (h0 : 0 ≤ q) (h : toDouble q = none) :
    twoPow 1024 - twoPow 970 ≤ q ∨ q < twoPow (-1022) := by
  unfold toDouble at h
  simp only at h
  split_ifs at h with h1 h2
  · left
    obtain ⟨s1, s2, s3, s4⟩ := ulpExponent_spec q h0 2045 (-1074)
    have hpos := twoPow_pos (ulpExponent q 2045 (-1074))
    have h3 := roundHalfEven_near (q / twoPow (ulpExponent q 2045 (-1074)))
      (div_nonneg h0 hpos.le)
    rw [abs_le] at h3
    have h4 : q = q / twoPow (ulpExponent q 2045 (-1074))
        * twoPow (ulpExponent q 2045 (-1074)) := by
      field_simp
    have h5 : twoPow (ulpExponent q 2045 (-1074)) ≤ twoPow 971 :=
      twoPow_le _ _ (by push_cast at s2; omega)
    have h6 : twoPow 971 = twoPow 970 * 2 := by
      have : (971 : Int) = 970 + 1 := by norm_num
      rw [this, twoPow_add]
      congr 1
      rw [twoPow_eq_zpow]
      norm_num
    unfold nearestDouble at h1
    simp only at h1
    nlinarith [h3.1, h3.2]
  · right
    have := twoPow_pos (-1076)
    linarith [h2.1]

/-- C7, amended. A size string made of a decimal number `n` (digits, with at most one
dot and at least one digit) followed by a unit suffix of exponent `k` (`k = 0` for no
suffix or `b`, `1` for `k`/`kb`, `2` for `m`/`mb`, `3` for `g`/`gb`, `4` for `t`/`tb`,
in any mix of upper and lower case) yields `thresholdOf n k`: 0 when `std::stod`
reports a range error for `n`; otherwise, with `d` the double nearest to `n`, the
product `d * 1024 ^ k` when it is below `2 ^ 1024` and `+infinity` when it is not. -/
theorem parseSizeString_number_times_unit (intPart fracPart : List Char) (unit : String)
    (k : Nat) (hi : ∀ c ∈ intPart, c.isDigit = true) (hf : ∀ c ∈ fracPart, c.isDigit = true)
    (hu : unitExponent (toLower unit) = some k) :
    (intPart ≠ [] →
      parseSizeString ⟨intPart ++ unit.data⟩ = thresholdOf (digitsValue intPart : ℚ) k)
    ∧ (intPart ≠ [] ∨ fracPart ≠ [] →
      parseSizeString ⟨intPart ++ '.' :: fracPart ++ unit.data⟩
        = thresholdOf (decimalValue intPart fracPart) k)
    ∧ (∀ n : ℚ, toDouble n = none → thresholdOf n k = 0)
    ∧ (∀ n d : ℚ, toDouble n = some d → d * 1024 ^ k < twoPow 1024 →
        thresholdOf n k = ((d * 1024 ^ k : ℚ) : Double))
    ∧ (∀ n d : ℚ, toDouble n = some d → twoPow 1024 ≤ d * 1024 ^ k →
        thresholdOf n k = ⊤) := by
  refine ⟨?_, ?_, ?_, ?_, ?_⟩
  · intro hne
    have hn : ∀ c ∈ intPart, isNumChar c = true := fun c hc => by simp [isNumChar, hi c hc]
    exact parseSizeString_numeral intPart unit _ k hne hn (stod_int intPart hi hne) hu
  · intro hne
    have hn : ∀ c ∈ intPart ++ '.' :: fracPart, isNumChar c = true := by
      intro c hc
      simp only [List.mem_append, List.mem_cons] at hc
      rcases hc with hc | hc | hc
      · simp [isNumChar, hi c hc]
      · subst hc; decide
      · simp [isNumChar, hf c hc]
    have h := parseSizeString_numeral (intPart ++ '.' :: fracPart) unit _ k (by simp) hn
      (stod_frac intPart fracPart hi hf hne) hu
    exact h
  · intro n hd
    unfold thresholdOf
    rw [hd]
  · intro n d hd hlt
    unfold thresholdOf
    rw [hd]
    show (if d * 1024 ^ k < twoPow 1024 then ((d * 1024 ^ k : ℚ) : Double) else ⊤) = _
    rw [if_pos hlt]
  · intro n d hd hge
    unfold thresholdOf
    rw [hd]
    show (if d * 1024 ^ k < twoPow 1024 then ((d * 1024 ^ k : ℚ) : Double) else ⊤) = _
    rw [if_neg (not_lt.mpr hge)]

/-- The examples of the specification, `"10MB"` is `10 * 1024 * 1024` and `"1.5GB"` is
`1.5 * 1024 ^ 3`, and one whose number is not a double: `"0.1KB"` is 1024 times the double
nearest to one tenth. -/
theorem parseSizeString_number_times_unit_witness :
    (∀ c ∈ ['1', '0'], c.isDigit = true) ∧ (∀ c ∈ ['1'], c.isDigit = true)
    ∧ (∀ c ∈ ['5'], c.isDigit = true) ∧ (∀ c ∈ ['0'], c.isDigit = true)
    ∧ unitExponent (toLower "MB") = some 2 ∧ unitExponent (toLower "GB") = some 3
    ∧ unitExponent (toLower "KB") = some 1
    ∧ parseSizeString "10MB" = ((10 * 1024 * 1024 : ℚ) : Double)
    ∧ parseSizeString "1.5GB" = ((1.5 * 1024 ^ 3 : ℚ) : Double)
    ∧ parseSizeString "0.1KB" = ((3602879701896397 / 2 ^ 55 * 1024 : ℚ) : Double) :=
  ⟨by decide, by decide, by decide, by decide, by decide, by decide, by decide,
    ((parseSizeString_number_times_unit ['1', '0'] [] "MB" 2 (by decide) (by decide)
      (by decide)).1 (by decide)).trans (by decide!),
    ((parseSizeString_number_times_unit ['1'] ['5'] "GB" 3 (by decide) (by decide)
      (by decide)).2.1 (Or.inl (by decide))).trans (by decide!),
    ((parseSizeString_number_times_unit ['0'] ['1'] "KB" 1 (by decide) (by decide)
      (by decide)).2.1 (Or.inl (by decide))).trans (by decide!)⟩

/-- C7, as stated, fails: the decimal number made of a 1 and 399 zeros, without suffix,
is beyond the range of `double`; `std::stod` throws, the `catch` of lines 87-90 returns
0, and the number itself is `10 ^ 399`. -/
theorem out_of_range_numeral_resolves_to_zero :
    parseSizeString ⟨'1' :: List.replicate 399 '0'⟩ = 0
    ∧ (digitsValue ('1' :: List.replicate 399 '0') : ℚ) * 1024 ^ 0 = 10 ^ 399
    ∧ unitExponent (toLower "") = some 0 := by
  decide!

/-! ### Loading the configuration -/

theorem getlines_length (d : Char) (s cur : List Char) :
    (getlines d s cur).length
      = s.count d + (match s.getLast? with
          | some c => if c = d then 0 else 1
          | none => if cur = [] then 0 else 1) := by
  induction s generalizing cur with
  | nil => simp only [getlines]; split_ifs <;> simp
  | cons c cs ih =>
    by_cases hcd : c = d
    · subst hcd
      rw [getlines, if_pos rfl, List.length_cons, ih, List.count_cons_self]
      cases cs with
      | nil => simp
      | cons x xs =>
        simp only [List.getLast?_cons_cons, List.getLast?_eq_getLast _ (List.cons_ne_nil x xs)]
        omega
    · rw [getlines, if_neg hcd, ih, List.count_cons_of_ne (Ne.symm hcd)]
      cases cs with
      | nil => simp [hcd]
      | cons x xs =>
        simp only [List.getLast?_cons_cons, List.getLast?_eq_getLast _ (List.cons_ne_nil x xs)]

theorem splitFields_length (record : List Char) (hne : record ≠ []) :
    (splitFields record).length = fieldCountNoTrailing record := by
  rw [splitFields, List.length_map, getlines_length, fieldCountNoTrailing]
  cases h : record.getLast? with
  | none => simp [List.getLast?_eq_none_iff] at h; exact absurd h hne
  | some c => by_cases hc : c = '\t' <;> simp [hc]

theorem loadLines_eq (lines : List (List Char)) (first_line : Bool)
    (file_configs : List FileConfig) :
    loadLines lines first_line file_configs
      = file_configs ++
        ((if first_line then ((lines.map stripCR).filter (fun l => l ≠ [])).tail
          else (lines.map stripCR).filter (fun l => l ≠ [])).filter
            (fun r => 3 ≤ (splitFields r).length)).map
          (fun r => makeConfig (splitFields r)) := by
  induction lines generalizing first_line file_configs with
  | nil => cases first_line <;> simp [loadLines]
  | cons raw rest ih =>
    by_cases hb : stripCR raw = []
    · simp only [loadLines, hb, if_true, ih, List.map_cons]
      simp
    · cases first_line with
      | true =>
        simp only [loadLines, hb, if_false, if_true, ih, List.map_cons]
        simp [hb]
      | false =>
        by_cases hf : (splitFields (stripCR raw)).length < 3
        · simp only [loadLines, hb, if_false, hf, if_true, ih, List.map_cons]
          have : ¬ 3 ≤ (splitFields (stripCR raw)).length := by omega
          simp [hb, this]
        · simp only [loadLines, hb, if_false, hf, ih, List.map_cons]
          have : 3 ≤ (splitFields (stripCR raw)).length := by omega
          simp [hb, this]

theorem loadConfig_eq (file_configs : List FileConfig) (content : String) :
    (loadConfig file_configs content).2
      = file_configs ++
        ((dataRecords content).filter (fun r => 3 ≤ (splitFields r).length)).map
          (fun r => makeConfig (splitFields r)) := by
  simp only [loadConfig, loadLines_eq, dataRecords, nonBlankRecords, if_true]

theorem mem_nonBlankRecords (content : String) (r : List Char)
    (hr : r ∈ nonBlankRecords content) : r ≠ [] := by
  simp only [nonBlankRecords, List.mem_filter] at hr
  simpa using hr.2

theorem mem_dataRecords (content : String) (r : List Char) (hr : r ∈ dataRecords content) :
    r ≠ [] :=
  mem_nonBlankRecords content r (List.mem_of_mem_tail hr)

theorem stod_eq_toDouble (num_str : List Char) (v : ℚ) (h : stod num_str = some v) :
    ∃ q : ℚ, toDouble q = some v := by
  simp only [stod] at h
  split at h
  · split_ifs at h
    exact ⟨_, h⟩
  · split_ifs at h
    exact ⟨_, h⟩

theorem stod_nonneg (num_str : List Char) (v : ℚ) (h : stod num_str = some v) : 0 ≤ v := by
  obtain ⟨q, hq⟩ := stod_eq_toDouble num_str v h
  exact toDouble_nonneg q v hq

theorem stod_lt (num_str : List Char) (v : ℚ) (h : stod num_str = some v) :
    v < twoPow 1024 := by
  obtain ⟨q, hq⟩ := stod_eq_toDouble num_str v h
  exact toDouble_lt q v hq

theorem parseSizeString_of_unknown_unit (size_str : String) (v : ℚ)
    (hv : stod (size_str.data.takeWhile isNumChar) = some v)
    (hu : unitExponent (toLower ⟨size_str.data.dropWhile isNumChar⟩) = none) :
    parseSizeString size_str = (v : Double) := by
  have hne : size_str.data ≠ [] := by
    intro h
    rw [h] at hv
    simp [stod, scanDigits] at hv
  simp only [parseSizeString, if_neg hne, hv]
  simp only [unitExponent] at hu
  split_ifs at hu
  simp only [*, if_false]

theorem mul1024_iterate_nonneg (d : ℚ) (hd : 0 ≤ d) (hlt : d < twoPow 1024) (k : ℕ) :
    0 ≤ mul1024^[k] (d : Double) := by
  rw [mul1024_iterate d hd hlt k]
  split_ifs
  · exact WithTop.coe_nonneg.mpr (by positivity)
  · exact le_top

theorem parseSizeString_nonneg (size_str : String) : 0 ≤ parseSizeString size_str := by
  by_cases hne : size_str.data = []
  · simp [parseSizeString, hne]
  · cases hv : stod (size_str.data.takeWhile isNumChar) with
    | none => rw [parseSizeString_of_stod_none _ hv]
    | some v =>
      have h0 := stod_nonneg _ v hv
      cases hk : unitExponent (toLower ⟨size_str.data.dropWhile isNumChar⟩) with
      | none =>
        rw [parseSizeString_of_unknown_unit _ v hv hk]
        exact WithTop.coe_nonneg.mpr h0
      | some k =>
        rw [parseSizeString_eq _ v k hne hv hk]
        exact mul1024_iterate_nonneg v h0 (stod_lt _ v hv) k

theorem parseSizeString_empty : parseSizeString "" = 0 := by decide!

theorem parseSizeString_signed : parseSizeString "-5MB" = 0 := by decide!

theorem parseSizeString_dots : parseSizeString ".." = 0 := by decide!

theorem parseSizeString_two_dots :
    parseSizeString "1.2.3" = ((5404319552844595 / 2 ^ 52 : ℚ) : Double) := by decide!

theorem parseSizeString_exponent : parseSizeString "1e5" = 1 := by decide!

theorem parseSizeString_letters : parseSizeString "7xyz" = 7 := by decide!

theorem parseSizeString_long_letters :
    parseSizeString ⟨'1' :: List.replicate 399 '0' ++ ['x', 'y', 'z']⟩ = 0 := by decide!

theorem parseSizeString_overflow :
    parseSizeString ⟨'1' :: List.replicate 300 '0' ++ ['T', 'B']⟩ = ⊤ := by decide!

/-- C8. For every input string the threshold `parseSizeString` produces is greater than
or equal to 0, and so is the `max_size_bytes` of every entry `loadConfig` loads; a
string whose numeric part `std::stod` cannot convert (empty, signed, dots only, beyond
the range of `double`) resolves to 0 and an unknown unit (exponent notation included)
resolves to the bare number, as `std::stod` converts it. -/
theorem threshold_nonneg :
    (∀ size_str : String, 0 ≤ parseSizeString size_str)
    ∧ (∀ size_str : String, stod (size_str.data.takeWhile isNumChar) = none →
        parseSizeString size_str = 0)
    ∧ (∀ (size_str : String) (v : ℚ), stod (size_str.data.takeWhile isNumChar) = some v →
        unitExponent (toLower ⟨size_str.data.dropWhile isNumChar⟩) = none →
        parseSizeString size_str = (v : Double))
    ∧ (∀ content : String, ∀ e ∈ (loadConfig [] content).2, 0 ≤ e.max_size_bytes)
    ∧ parseSizeString "" = 0 ∧ parseSizeString "-5MB" = 0 ∧ parseSizeString ".." = 0
    ∧ parseSizeString "1.2.3" = ((5404319552844595 / 2 ^ 52 : ℚ) : Double)
    ∧ parseSizeString "1e5" = 1
    ∧ parseSizeString "7xyz" = 7
    ∧ parseSizeString ⟨'1' :: List.replicate 399 '0' ++ ['x', 'y', 'z']⟩ = 0
    ∧ parseSizeString ⟨'1' :: List.replicate 300 '0' ++ ['T', 'B']⟩ = ⊤ := by
  refine ⟨parseSizeString_nonneg, parseSizeString_of_stod_none,
    parseSizeString_of_unknown_unit, ?_, parseSizeString_empty, parseSizeString_signed,
    parseSizeString_dots, parseSizeString_two_dots, parseSizeString_exponent,
    parseSizeString_letters, parseSizeString_long_letters, parseSizeString_overflow⟩
  intro content e he
  rw [loadConfig_eq, List.nil_append, List.mem_map] at he
  obtain ⟨r, -, rfl⟩ := he
  exact parseSizeString_nonneg _

/-! ### Actions and kinds -/

theorem parseAction_eq (action_str : String) :
    parseAction action_str = if toLower action_str = "trash" then "trash" else "warn" := by
  simp only [parseAction]
  by_cases h1 : toLower action_str = "warn"
  · simp [h1]
  · by_cases h2 : toLower action_str = "trash"
    · simp [h2]
    · simp [h1, h2]

theorem resolveType_eq (fields : List String) :
    resolveType fields
      = if 4 ≤ fields.length ∧ toLower (fields.getD 3 "") = "path" then "path"
        else "file" := by
  simp only [resolveType, ge_iff_le]
  generalize toLower (fields.getD 3 "") = t
  by_cases h4 : 4 ≤ fields.length
  · by_cases h1 : t = "file"
    · subst h1
      have hne : ("file" : String) ≠ "path" := by decide
      rw [if_pos h4, if_neg (fun hh => hh.1 rfl), if_neg (fun hh => hne hh.2)]
    · by_cases h2 : t = "path"
      · subst h2
        rw [if_pos h4, if_neg (fun hh => hh.2 rfl), if_pos ⟨h4, rfl⟩]
      · rw [if_pos h4, if_pos ⟨h1, h2⟩, if_neg (fun hh => h2 hh.2)]
  · rw [if_neg h4, if_neg (fun hh => h4 hh.1)]

/-- C9. `parseAction` returns `"warn"` unless the string equals `"warn"` or `"trash"`
ignoring case, in which case it returns that word in lower case; the type of a record
that `loadConfig` resolves is `"file"` unless the fourth field equals `"file"` or
`"path"` ignoring case, a missing fourth field giving `"file"` too. So an unknown
action resolves to warn and an unknown kind to file, for every loaded entry. -/
theorem unknown_action_and_kind_default :
    (∀ action_str : String,
        (equalsIgnoringCase action_str "warn" → parseAction action_str = "warn")
        ∧ (equalsIgnoringCase action_str "trash" → parseAction action_str = "trash")
        ∧ (¬ equalsIgnoringCase action_str "warn" → ¬ equalsIgnoringCase action_str "trash" →
            parseAction action_str = "warn"))
    ∧ (∀ fields : List String,
        (fields.length < 4 → resolveType fields = "file")
        ∧ (4 ≤ fields.length → equalsIgnoringCase (fields.getD 3 "") "file" →
            resolveType fields = "file")
        ∧ (4 ≤ fields.length → equalsIgnoringCase (fields.getD 3 "") "path" →
            resolveType fields = "path")
        ∧ (4 ≤ fields.length → ¬ equalsIgnoringCase (fields.getD 3 "") "file" →
            ¬ equalsIgnoringCase (fields.getD 3 "") "path" → resolveType fields = "file"))
    ∧ (∀ (content : String), ∀ e ∈ (loadConfig [] content).2,
        ∃ r ∈ dataRecords content,
          e.action = parseAction ((splitFields r).getD 2 "")
          ∧ e.type = resolveType (splitFields r)) := by
  have hw : toLower "warn" = "warn" := by decide
  have ht : toLower "trash" = "trash" := by decide
  have hf : toLower "file" = "file" := by decide
  have hp : toLower "path" = "path" := by decide
  refine ⟨?_, ?_, ?_⟩
  · intro s
    simp only [equalsIgnoringCase, hw, ht, parseAction_eq]
    refine ⟨?_, ?_, ?_⟩
    · intro h; rw [h]; decide
    · intro h; rw [if_pos h]
    · intro _ h; rw [if_neg h]
  · intro fields
    simp only [equalsIgnoringCase, hf, hp, resolveType_eq]
    refine ⟨?_, ?_, ?_, ?_⟩
    · intro h
      rw [if_neg]
      omega
    · intro _ h
      rw [h, if_neg]
      exact fun hh => absurd hh.2 (by decide)
    · intro h4 h
      rw [if_pos ⟨h4, h⟩]
    · intro _ _ h
      rw [if_neg]
      exact fun hh => h hh.2
  · intro content e he
    rw [loadConfig_eq, List.nil_append, List.mem_map] at he
    obtain ⟨r, hr, rfl⟩ := he
    exact ⟨r, (List.mem_filter.mp hr).1, rfl, rfl⟩

/-! ### Records and entries -/

/-- C10, as stated, fails: the record after the header holds a path, a size, and an
empty third field after its second tab: three tab-separated fields, and no entry is
loaded, so `loadConfig` reports failure. -/
theorem trailing_empty_field_not_counted :
    ((dataRecords "path\tsize\taction\ndata.log\t100KB\t").filter
        (fun r => 3 ≤ fieldCount r)).length = 1
    ∧ (loadConfig [] "path\tsize\taction\ndata.log\t100KB\t").2 = []
    ∧ (loadConfig [] "path\tsize\taction\ndata.log\t100KB\t").1 = false := by
  decide

/-- C10, amended. `loadConfig` skips the blank lines, the first line that is not blank
(the header), and every record with fewer than 3 fields, where the fields of a record
are what tabs separate except that an empty field after a final tab is not counted.
Every other record yields exactly one entry, appended in file order after the entries
already held, with `has_warned = false`. Called on a monitor without entries, it loads
as many entries as there are such records and reports failure exactly when there are
none. -/
theorem loadConfig_loads_records (file_configs : List FileConfig) (content : String) :
    (loadConfig file_configs content).2
      = file_configs ++
        ((dataRecords content).filter (fun r => 3 ≤ fieldCountNoTrailing r)).map
          (fun r => makeConfig (splitFields r))
    ∧ (∀ r ∈ dataRecords content, (splitFields r).length = fieldCountNoTrailing r)
    ∧ (∀ r : List Char, (makeConfig (splitFields r)).has_warned = false)
    ∧ (loadConfig [] content).2.length
        = ((dataRecords content).filter (fun r => 3 ≤ fieldCountNoTrailing r)).length
    ∧ ((loadConfig [] content).1 = false ↔
        ((dataRecords content).filter (fun r => 3 ≤ fieldCountNoTrailing r)).length = 0) := by
  have hlen : ∀ r ∈ dataRecords content, (splitFields r).length = fieldCountNoTrailing r :=
    fun r hr => splitFields_length r (mem_dataRecords content r hr)
  have hfilter : (dataRecords content).filter (fun r => 3 ≤ (splitFields r).length)
      = (dataRecords content).filter (fun r => 3 ≤ fieldCountNoTrailing r) := by
    apply List.filter_congr
    intro r hr
    rw [hlen r hr]
  have heq : ∀ fc : List FileConfig, (loadConfig fc content).2 = fc ++
      ((dataRecords content).filter (fun r => 3 ≤ fieldCountNoTrailing r)).map
        (fun r => makeConfig (splitFields r)) := by
    intro fc
    rw [loadConfig_eq, hfilter]
  refine ⟨heq file_configs, hlen, fun _ => rfl, ?_, ?_⟩
  · rw [heq []]; simp
  · have h1 : (loadConfig [] content).1 = !((loadConfig [] content).2).isEmpty := rfl
    rw [h1, heq []]
    simp [List.isEmpty_iff]

/-! ### What a pass leaves alone, and how the loop is left -/

theorem evalEntry_settings (p : Probe) (i : Nat) (c : FileConfig) :
    (evalEntry p i c).1.settings = c.settings := by
  rw [evalEntry_frame]
  rfl

theorem checkAllFiles_settings (env : Nat → Probe) (l : List FileConfig) :
    (checkAllFiles env l).1.map FileConfig.settings = l.map FileConfig.settings := by
  apply List.ext_getElem?
  intro n
  rw [List.getElem?_map, List.getElem?_map, checkAllFiles_getElem?]
  cases l[n]? with
  | none => rfl
  | some c => simp [evalEntry_settings]

theorem pathStepThrowing_of_returns (o : Outcome) (i : Nat) (c : FileConfig)
    (h1 : o.scan_throws = false) (h2 : o.rescan_throws = false) :
    pathStepThrowing o i c = ((pathStep o.probe i c).1, (pathStep o.probe i c).2, false) := by
  have hg : getDirectorySize o = some o.probe.current_size := by
    simp [getDirectorySize, h1]
  simp only [pathStepThrowing, pathStep, hg, handleOversizePathThrowing,
    handleOversizePath, h2, Bool.false_eq_true, if_false]
  split_ifs <;> rfl

theorem pathLoopThrowing_of_returns (env : Nat → Outcome)
    (h : ∀ i, (env i).scan_throws = false ∧ (env i).rescan_throws = false)
    (i : Nat) (l : List FileConfig) :
    pathLoopThrowing env i l
      = ((forEach pathStep (fun j => (env j).probe) i l).1,
          (forEach pathStep (fun j => (env j).probe) i l).2, false) := by
  induction l generalizing i with
  | nil => rfl
  | cons c cs ih =>
    simp only [pathLoopThrowing, forEach,
      pathStepThrowing_of_returns (env i) i c (h i).1 (h i).2, ih]
    rfl

theorem checkAllFilesThrowing_of_returns (env : Nat → Outcome) (h : returns env)
    (l : List FileConfig) :
    checkAllFilesThrowing env l
      = ((checkAllFiles (fun j => (env j).probe) l).1,
          (checkAllFiles (fun j => (env j).probe) l).2, false) := by
  simp only [checkAllFilesThrowing, checkAllFiles, pathLoopThrowing_of_returns env h]

theorem fileStep_settings (p : Probe) (i : Nat) (c : FileConfig) :
    (fileStep p i c).1.settings = c.settings := by
  simp only [fileStep, handleOversizeFile]
  split_ifs <;> rfl

theorem pathStepThrowing_settings (o : Outcome) (i : Nat) (c : FileConfig) :
    (pathStepThrowing o i c).1.settings = c.settings := by
  cases hs : o.scan_throws with
  | true =>
    have hg : getDirectorySize o = none := by simp [getDirectorySize, hs]
    simp only [pathStepThrowing, hg]
    split_ifs <;> rfl
  | false =>
    have hg : getDirectorySize o = some o.probe.current_size := by
      simp [getDirectorySize, hs]
    simp only [pathStepThrowing, hg, handleOversizePathThrowing]
    split_ifs <;> rfl

theorem forEach_fileStep_settings (env : Nat → Probe) (i : Nat) (l : List FileConfig) :
    (forEach fileStep env i l).1.map FileConfig.settings = l.map FileConfig.settings := by
  induction l generalizing i with
  | nil => rfl
  | cons c cs ih => simp [forEach, fileStep_settings, ih]

theorem pathLoopThrowing_settings (env : Nat → Outcome) (i : Nat) (l : List FileConfig) :
    (pathLoopThrowing env i l).1.map FileConfig.settings = l.map FileConfig.settings := by
  induction l generalizing i with
  | nil => rfl
  | cons c cs ih =>
    simp only [pathLoopThrowing]
    split_ifs
    · simp [pathStepThrowing_settings]
    · simp [pathStepThrowing_settings, ih]

/-- Whatever the probes and the actions do, exceptions included, a `checkAllFiles` pass
changes nothing in the entries but the flag `has_warned`, and does not write
`running`. -/
theorem checkAllFilesThrowing_settings (env : Nat → Outcome) (m : Monitor) :
    (m.checkAllFiles env).1.file_configs.map FileConfig.settings
        = m.file_configs.map FileConfig.settings
    ∧ (m.checkAllFiles env).1.running = m.running := by
  refine ⟨?_, rfl⟩
  simp only [Monitor.checkAllFiles, checkAllFilesThrowing]
  rw [pathLoopThrowing_settings, forEach_fileStep_settings]

theorem waitLoop_stopped (stop_in_second : Nat → Bool) (remaining i : Nat) (m : Monitor)
    (h : (waitLoop stop_in_second remaining i m).running = false) :
    m.running = false ∨ ∃ k, i ≤ k ∧ k < i + remaining ∧ stop_in_second k = true := by
  induction remaining generalizing i m with
  | zero => left; exact h
  | succ n ih =>
    simp only [waitLoop] at h
    by_cases hr : m.running = true
    · rw [if_pos hr] at h
      by_cases hs : stop_in_second i = true
      · right; exact ⟨i, le_refl i, by omega, hs⟩
      · rw [if_neg hs] at h
        rcases ih (i + 1) m h with h1 | ⟨k, hk1, hk2, hk3⟩
        · left; exact h1
        · right; exact ⟨k, by omega, by omega, hk3⟩
    · left; simpa using hr

theorem iteration_stopped (check_interval_seconds : Int) (c : Cycle) (m : Monitor)
    (h : (iteration check_interval_seconds c m).1.running = false) :
    m.running = false ∨ c.stopRequested check_interval_seconds := by
  have hrun : (m.checkAllFiles c.env).1.running = m.running := rfl
  simp only [iteration] at h
  by_cases hp : c.stop_in_pass = true
  · right; left; exact hp
  · rw [if_neg hp] at h
    split_ifs at h
    · left; rw [← hrun]; exact h
    · rcases waitLoop_stopped _ _ _ _ h with h1 | ⟨k, _, hk2, hk3⟩
      · left; rw [← hrun]; exact h1
      · right; right; exact ⟨k, by omega, hk3⟩

theorem iteration_thrown (check_interval_seconds : Int) (c : Cycle) (m : Monitor)
    (h : (iteration check_interval_seconds c m).2.2 = true) : ¬ returns c.env := by
  intro hret
  simp only [iteration, Monitor.checkAllFiles,
    checkAllFilesThrowing_of_returns c.env hret] at h
  simp at h

/-- The loop of `startMonitoring` is left in two ways only: by a stop request, which
makes it return, or by an exception of the directory probe, which nothing catches. -/
theorem whileRunning_end (check_interval_seconds : Int) (cycles : List Cycle) (m : Monitor) :
    ((whileRunning check_interval_seconds cycles m).2.2 = LoopEnd.stopped →
        m.running = false ∨ ∃ c ∈ cycles, c.stopRequested check_interval_seconds)
    ∧ ((whileRunning check_interval_seconds cycles m).2.2 = LoopEnd.uncaught →
        ∃ c ∈ cycles, ¬ returns c.env) := by
  induction cycles generalizing m with
  | nil =>
    simp only [whileRunning]
    refine ⟨?_, ?_⟩
    · intro h
      left
      by_contra hr
      simp [hr] at h
    · intro h
      split_ifs at h
  | cons c cs ih =>
    by_cases hr : m.running = true
    · simp only [whileRunning, if_pos hr]
      by_cases ht : (iteration check_interval_seconds c m).2.2 = true
      · simp only [ht, if_true]
        refine ⟨fun h => by simp at h, fun _ => ⟨c, by simp, iteration_thrown _ _ _ ht⟩⟩
      · simp only [ht]
        obtain ⟨ih1, ih2⟩ := ih (iteration check_interval_seconds c m).1
        refine ⟨?_, ?_⟩
        · intro h
          rcases ih1 h with h1 | ⟨d, hd, hs⟩
          · rcases iteration_stopped _ _ _ h1 with h2 | h2
            · left; exact h2
            · right; exact ⟨c, by simp, h2⟩
          · right; exact ⟨d, by simp [hd], hs⟩
        · intro h
          obtain ⟨d, hd, hs⟩ := ih2 h
          exact ⟨d, by simp [hd], hs⟩
    · refine ⟨fun _ => Or.inl (by simpa using hr), ?_⟩
      simp only [whileRunning, hr]
      intro h
      simp at h

theorem waitLoop_of_no_stop (stop_in_second : Nat → Bool) (remaining i : Nat) (m : Monitor)
    (h : ∀ k, i ≤ k → k < i + remaining → stop_in_second k = false) :
    waitLoop stop_in_second remaining i m = m := by
  induction remaining generalizing i m with
  | zero => rfl
  | succ n ih =>
    simp only [waitLoop]
    split_ifs with hr hs
    · rw [h i (le_refl i) (by omega)] at hs
      exact absurd hs (by decide)
    · exact ih (i + 1) m (fun k hk1 hk2 => h k (by omega) (by omega))
    · rfl

theorem iteration_of_no_stop (check_interval_seconds : Int) (c : Cycle) (m : Monitor)
    (h : ¬ c.stopRequested check_interval_seconds) (hret : returns c.env) :
    iteration check_interval_seconds c m
      = ({ m with file_configs :=
            (checkAllFiles (fun j => (c.env j).probe) m.file_configs).1 },
          (checkAllFiles (fun j => (c.env j).probe) m.file_configs).2, false) := by
  simp only [Cycle.stopRequested, not_or, not_exists, not_and] at h
  obtain ⟨h1, h2⟩ := h
  have h1 : c.stop_in_pass = false := by simpa using h1
  simp only [iteration, h1, Monitor.checkAllFiles, checkAllFilesThrowing_of_returns c.env hret]
  rw [waitLoop_of_no_stop]
  · rfl
  · intro k _ hk
    simpa using h2 k (by omega)

/-- While every call of the directory probe returns and no stop request arrives, the
loop of `startMonitoring` goes on: it makes the pass of every cycle, which is the pass
`checkAllFiles` describes. -/
theorem whileRunning_of_no_stop (check_interval_seconds : Int) (cycles : List Cycle)
    (m : Monitor) (hr : m.running = true)
    (h : ∀ c ∈ cycles, ¬ c.stopRequested check_interval_seconds ∧ returns c.env) :
    whileRunning check_interval_seconds cycles m
      = ({ m with file_configs :=
            (runCycles (cycles.map (fun c j => (c.env j).probe)) m.file_configs).1 },
          (runCycles (cycles.map (fun c j => (c.env j).probe)) m.file_configs).2,
          LoopEnd.running) := by
  induction cycles generalizing m with
  | nil =>
    cases m
    simp_all [whileRunning, runCycles]
  | cons c cs ih =>
    have hi := iteration_of_no_stop check_interval_seconds c m (h c (by simp)).1
      (h c (by simp)).2
    have ih2 := ih { m with file_configs :=
        (checkAllFiles (fun j => (c.env j).probe) m.file_configs).1 } hr
      (fun d hd => h d (by simp [hd]))
    simp only [whileRunning, if_pos hr, List.map_cons, runCycles, hi, ih2]
    rfl

/-- C11, on the code. One entry of type path, and a cycle without stop request in which
`std::filesystem::exists` throws at line 279 (the monitor may not search the directory
`/srv/private`, and `stat` fails with `EACCES`): the exception leaves `checkAllFiles` and
the loop of `startMonitoring` with `running` still set and the entry as it was,
`stopMonitoring` never having been called. -/
theorem uncaught_exception_leaves_loop :
    (startMonitoring 5
        [⟨fun _ => ⟨⟨0, 0, 0⟩, true, false⟩, false, fun _ => false⟩]
        ⟨[FileConfig.mk "/srv/private/logs" 1048576 "1MB" "warn" false "path"], false⟩).2.2
      = LoopEnd.uncaught
    ∧ (startMonitoring 5
        [⟨fun _ => ⟨⟨0, 0, 0⟩, true, false⟩, false, fun _ => false⟩]
        ⟨[FileConfig.mk "/srv/private/logs" 1048576 "1MB" "warn" false "path"], false⟩).1.running = true
    ∧ (startMonitoring 5
        [⟨fun _ => ⟨⟨0, 0, 0⟩, true, false⟩, false, fun _ => false⟩]
        ⟨[FileConfig.mk "/srv/private/logs" 1048576 "1MB" "warn" false "path"], false⟩).1.file_configs
      = [FileConfig.mk "/srv/private/logs" 1048576 "1MB" "warn" false "path"]
    ∧ ¬ Cycle.stopRequested 5
        (⟨fun _ => ⟨⟨0, 0, 0⟩, true, false⟩, false, fun _ => false⟩ : Cycle) := by
  refine ⟨by decide, by decide, by decide, ?_⟩
  simp [Cycle.stopRequested]

/-! ### Display of a size -/

theorem scaleLoop_succ_of_enough (fuel : Nat) (size : ℚ) (unit_index : Nat)
    (h : 4 ≤ fuel + unit_index) :
    scaleLoop (fuel + 1) size unit_index = scaleLoop fuel size unit_index := by
  induction fuel generalizing size unit_index with
  | zero =>
    have : ¬ unit_index < 4 := by omega
    simp [scaleLoop, this]
  | succ n ih =>
    have e1 : scaleLoop (n + 1 + 1) size unit_index
        = if size ≥ 1024 ∧ unit_index < 4 then scaleLoop (n + 1) (size / 1024) (unit_index + 1)
          else (size, unit_index) := rfl
    have e2 : scaleLoop (n + 1) size unit_index
        = if size ≥ 1024 ∧ unit_index < 4 then scaleLoop n (size / 1024) (unit_index + 1)
          else (size, unit_index) := rfl
    rw [e1, e2]
    split_ifs
    · exact ih _ _ (by omega)
    · rfl

theorem scaleLoop_enough (n : Nat) (size : ℚ) :
    scaleLoop (4 + n) size 0 = scaleLoop 4 size 0 := by
  induction n with
  | zero => rfl
  | succ n ih =>
    rw [← ih, ← Nat.add_assoc]
    exact scaleLoop_succ_of_enough (4 + n) size 0 (by omega)

theorem scaleLoop_four (s : ℚ) :
    scaleLoop 4 s 0
      = if s < 1024 then (s, 0)
        else if s < 1024 ^ 2 then (s / 1024, 1)
        else if s < 1024 ^ 3 then (s / 1024 / 1024, 2)
        else if s < 1024 ^ 4 then (s / 1024 / 1024 / 1024, 3)
        else (s / 1024 / 1024 / 1024 / 1024, 4) := by
  have e1 : s / 1024 ≥ 1024 ↔ ¬ s < 1024 ^ 2 := by
    constructor
    · intro h hh; linarith
    · intro h; have := not_lt.mp h; linarith
  have e2 : s / 1024 / 1024 ≥ 1024 ↔ ¬ s < 1024 ^ 3 := by
    constructor
    · intro h hh; linarith
    · intro h; have := not_lt.mp h; linarith
  have e3 : s / 1024 / 1024 / 1024 ≥ 1024 ↔ ¬ s < 1024 ^ 4 := by
    constructor
    · intro h hh; linarith
    · intro h; have := not_lt.mp h; linarith
  have e0 : s ≥ 1024 ↔ ¬ s < 1024 := by
    constructor
    · intro h hh; linarith
    · intro h; exact not_lt.mp h
  simp only [scaleLoop, e0, e1, e2, e3]
  by_cases h0 : s < 1024
  · simp [h0]
  · by_cases h1 : s < 1024 ^ 2
    · simp [h0, h1]
    · by_cases h2 : s < 1024 ^ 3
      · simp [h0, h1, h2]
      · by_cases h3 : s < 1024 ^ 4
        · simp [h0, h1, h2, h3]
        · simp [h0, h1, h2, h3]

theorem unitIndex_eq (s : ℚ) :
    unitIndex s
      = if s < 1024 then 0
        else if s < 1024 ^ 2 then 1
        else if s < 1024 ^ 3 then 2
        else if s < 1024 ^ 4 then 3
        else 4 := by
  have hr : List.range 4 = [0, 1, 2, 3] := rfl
  simp only [unitIndex, hr, List.filter_cons, List.filter_nil, decide_eq_true_eq]
  split_ifs <;> first | rfl | (exfalso; norm_num at *; linarith)

/-- The loop of `formatFileSize` ends with the unit index of the specification and the
byte count divided by that power of 1024. -/
theorem scaleLoop_eq (s : ℚ) : scaleLoop 4 s 0 = (s / 1024 ^ unitIndex s, unitIndex s) := by
  rw [scaleLoop_four, unitIndex_eq]
  split_ifs <;> simp <;> ring

theorem unitIndex_le (s : ℚ) : unitIndex s ≤ 4 := by
  rw [unitIndex_eq]
  split_ifs <;> simp

theorem scaled_lt (s : ℚ) (h : unitIndex s < 4) : s / 1024 ^ unitIndex s < 1024 := by
  rw [unitIndex_eq] at h ⊢
  split_ifs at h ⊢ <;> first
    | (exfalso; omega)
    | (simp only [pow_zero, div_one]; assumption)
    | (rw [div_lt_iff₀ (by norm_num)]; norm_num at *; linarith)

theorem scaled_ge (s : ℚ) (h : 0 < unitIndex s) : 1 ≤ s / 1024 ^ unitIndex s := by
  rw [unitIndex_eq] at h ⊢
  split_ifs at h ⊢ <;> first
    | (exfalso; omega)
    | (rw [le_div_iff₀ (by norm_num)]; norm_num at *; linarith)

theorem scaled_tb (s : ℚ) (h : 1024 ^ 5 ≤ s) :
    unitIndex s = 4 ∧ 1024 ≤ s / 1024 ^ unitIndex s := by
  rw [unitIndex_eq]
  split_ifs <;> first
    | (exfalso; norm_num at *; linarith)
    | (refine ⟨rfl, ?_⟩; rw [le_div_iff₀ (by norm_num)]; norm_num at *; linarith)

/-- A number below 100 written with two digits. -/
theorem two_digits (m : ℕ) (h : m < 100) :
    String.mk (List.replicate (2 - (Nat.repr m).length) '0') ++ Nat.repr m
      = Nat.repr (m / 10) ++ Nat.repr (m % 10) := by
  revert m
  decide

theorem fixed_two (v : ℚ) (h0 : 0 ≤ v) :
    fixed 2 v
      = Nat.repr (roundHalfEven (v * 100) / 100) ++ "."
        ++ Nat.repr (roundHalfEven (v * 100) / 10 % 10)
        ++ Nat.repr (roundHalfEven (v * 100) % 10) := by
  have hneg : ¬ v < 0 := not_lt.mpr h0
  have hm : roundHalfEven (v * 100) % 100 < 100 := Nat.mod_lt _ (by norm_num)
  have e1 : roundHalfEven (v * 100) % 100 / 10 = roundHalfEven (v * 100) / 10 % 10 := by omega
  have e2 : roundHalfEven (v * 100) % 100 % 10 = roundHalfEven (v * 100) % 10 := by omega
  have h2 := two_digits _ hm
  rw [e1, e2] at h2
  simp only [fixed, abs_of_nonneg h0, if_neg hneg]
  norm_num
  rw [String.append_assoc, String.append_assoc, String.append_assoc, h2]

theorem formatFileSize_hundreds : formatFileSize 1048575 = "1024.00 KB" := by decide!

theorem unitIndex_hundreds : unitIndex 1048575 = 1 := by decide!

/-- C12, as stated, fails: 1048575 bytes have unit index 1, below 4, and the value
`1048575 / 1024` is below 1024, and what is displayed is `1024.00 KB`, which is neither
below 1024 nor the value `1048575 / 1024`. -/
theorem display_rounds_up_to_1024 :
    formatFileSize 1048575 = "1024.00 KB"
    ∧ unitIndex 1048575 = 1
    ∧ (1048575 : ℚ) / 1024 ^ 1 < 1024
    ∧ (1048575 : ℚ) / 1024 ^ 1 ≠ 1024 :=
  ⟨formatFileSize_hundreds, unitIndex_hundreds, by norm_num, by norm_num⟩

/-- C12, amended. For every non-negative byte count `s`, `formatFileSize` chooses the
unit index `u` from 0 to 4 (B, KB, MB, GB, TB) that is the number of times `s` can be
divided by 1024 while it is at least 1024, capped at 4, and displays the value
`s / 1024 ^ u` rounded to two decimals (within half a hundredth of it), followed by a
blank and the unit. The value `s / 1024 ^ u` is below 1024 whenever `u < 4`, so what is
displayed is at most `1024.00`; it is at least 1 whenever `u > 0`, and so is what is
displayed; from `1024 ^ 5` on the unit stays TB and what is displayed is `1024.00` or
more. The loop needs no more than 4 turns. -/
theorem formatFileSize_unit_and_display (s : ℚ) (hs : 0 ≤ s) :
    unitIndex s ≤ 4
    ∧ formatFileSize s
        = Nat.repr (displayedHundredths s / 100) ++ "."
          ++ Nat.repr (displayedHundredths s / 10 % 10)
          ++ Nat.repr (displayedHundredths s % 10) ++ " "
          ++ (match unitIndex s with
              | 0 => "B" | 1 => "KB" | 2 => "MB" | 3 => "GB" | _ => "TB")
    ∧ |(displayedHundredths s : ℚ) / 100 - s / 1024 ^ unitIndex s| ≤ 1 / 200
    ∧ (unitIndex s < 4 → s / 1024 ^ unitIndex s < 1024 ∧ displayedHundredths s ≤ 102400)
    ∧ (0 < unitIndex s → 1 ≤ s / 1024 ^ unitIndex s ∧ 100 ≤ displayedHundredths s)
    ∧ (1024 ^ 5 ≤ s → unitIndex s = 4 ∧ 102400 ≤ displayedHundredths s)
    ∧ (∀ n, scaleLoop (4 + n) s 0 = scaleLoop 4 s 0) := by
  have hv : 0 ≤ s / 1024 ^ unitIndex s := by positivity
  refine ⟨unitIndex_le s, ?_, ?_, ?_, ?_, ?_, fun n => scaleLoop_enough n s⟩
  · have hu := unitIndex_le s
    simp only [formatFileSize, scaleLoop_eq, fixed_two _ hv, displayedHundredths, units]
    congr 1
    rcases h : unitIndex s with _ | _ | _ | _ | _ | n
    · rfl
    · rfl
    · rfl
    · rfl
    · rfl
    · omega
  · have h := roundHalfEven_near (s / 1024 ^ unitIndex s * 100) (by positivity)
    rw [abs_le] at h ⊢
    simp only [displayedHundredths]
    constructor <;> linarith
  · intro h
    have h1 := scaled_lt s h
    refine ⟨h1, roundHalfEven_le_of_lt _ 102400 ?_⟩
    push_cast
    linarith
  · intro h
    have h1 := scaled_ge s h
    refine ⟨h1, le_roundHalfEven_of_le _ 100 ?_⟩
    push_cast
    linarith
  · intro h
    have h1 := scaled_tb s h
    refine ⟨h1.1, le_roundHalfEven_of_le _ 102400 ?_⟩
    push_cast
    linarith [h1.2]

theorem formatFileSize_1536 :
    Nat.repr (displayedHundredths 1536 / 100) ++ "."
      ++ Nat.repr (displayedHundredths 1536 / 10 % 10)
      ++ Nat.repr (displayedHundredths 1536 % 10) ++ " "
      ++ (match unitIndex 1536 with
          | 0 => "B" | 1 => "KB" | 2 => "MB" | 3 => "GB" | _ => "TB") = "1.50 KB" := by
  decide!

theorem formatFileSize_unit_and_display_witness :
    (0 : ℚ) ≤ 1536 ∧ formatFileSize 1536 = "1.50 KB" :=
  ⟨by norm_num,
    (formatFileSize_unit_and_display 1536 (by norm_num)).2.1.trans formatFileSize_1536⟩

/-! ### Loaded entries are evaluated once -/

theorem makeConfig_type_action (fields : List String) :
    ((makeConfig fields).type = "file" ∨ (makeConfig fields).type = "path")
    ∧ ((makeConfig fields).action = "warn" ∨ (makeConfig fields).action = "trash") := by
  refine ⟨?_, ?_⟩
  · show resolveType fields = "file" ∨ resolveType fields = "path"
    rw [resolveType_eq]
    split_ifs
    · right; rfl
    · left; rfl
  · show parseAction (fields.getD 2 "") = "warn" ∨ parseAction (fields.getD 2 "") = "trash"
    rw [parseAction_eq]
    split_ifs
    · right; rfl
    · left; rfl

theorem loadConfig_type_action (content : String) :
    ∀ e ∈ (loadConfig [] content).2,
      (e.type = "file" ∨ e.type = "path") ∧ (e.action = "warn" ∨ e.action = "trash") := by
  intro e he
  rw [loadConfig_eq, List.nil_append, List.mem_map] at he
  obtain ⟨r, -, rfl⟩ := he
  exact makeConfig_type_action _

theorem evaluations_eventsOf (j : Nat) (t : List Event) :
    evaluations (eventsOf j t) = (evaluations t).filter (fun e => e.2 = j) := by
  induction t with
  | nil => rfl
  | cons e t ih =>
    simp only [eventsOf, evaluations] at ih ⊢
    by_cases h : e.index = j
    · rw [List.filter_cons_of_pos (by simpa using h)]
      cases e <;> simp_all [Event.index]
    · rw [List.filter_cons_of_neg (by simpa using h)]
      cases e <;> simp_all [Event.index]

theorem evalEntry_evaluations (p : Probe) (i : Nat) (c : FileConfig)
    (hk : c.type = "file" ∨ c.type = "path") :
    evaluations (evalEntry p i c).2 = [(c.type, i)] := by
  rcases hk with hk | hk
  · rw [evalEntry_of_file p i c hk, fileStep_evaluations, if_pos hk, hk]
  · rw [evalEntry_of_path p i c hk, pathStep_evaluations, if_pos hk, hk]

/-- While every call of the directory probe returns, a `checkAllFiles` pass over a loaded
configuration evaluates each entry exactly once: by the first loop and not the second
when its type is `"file"`, by the second and not the first when its type is `"path"`. -/
theorem loaded_entry_evaluated_once_of_returns (content : String) (env : Nat → Probe) :
    ∀ (j : Nat) (c : FileConfig), (loadConfig [] content).2[j]? = some c →
        evaluations (eventsOf j (forEach fileStep env 0 (loadConfig [] content).2).2)
            = (if c.type = "file" then [("file", j)] else [])
        ∧ evaluations (eventsOf j
              (forEach pathStep env 0
                (forEach fileStep env 0 (loadConfig [] content).2).1).2)
            = (if c.type = "path" then [("path", j)] else [])
        ∧ (evaluations (checkAllFiles env (loadConfig [] content).2).2).filter
              (fun e => e.2 = j) = [(c.type, j)]
        ∧ ((evaluations (checkAllFiles env (loadConfig [] content).2).2).map
              Prod.snd).count j = 1 := by
  intro j c hc
  have hk := (loadConfig_type_action content c (List.getElem?_mem hc)).1
  have h3 : (evaluations (checkAllFiles env (loadConfig [] content).2).2).filter
      (fun e => e.2 = j) = [(c.type, j)] := by
    rw [← evaluations_eventsOf, checkAllFiles_eventsOf env _ j c hc,
      evalEntry_evaluations _ _ _ hk]
  refine ⟨?_, ?_, h3, ?_⟩
  · rw [forEach_eventsOf fileStep fileStep_index env j _ 0 j c (by omega) hc,
      fileStep_evaluations]
  · have hc2 : (forEach fileStep env 0 (loadConfig [] content).2).1[j]?
        = some (fileStep (env j) j c).1 := by
      rw [forEach_fst_getElem?, hc]; simp
    rw [forEach_eventsOf pathStep pathStep_index env j _ 0 j _ (by omega) hc2,
      pathStep_evaluations, fileStep_type]
  · rw [List.count_eq_countP, List.countP_map, List.countP_eq_length_filter]
    have : List.filter ((fun x => x == j) ∘ Prod.snd)
        (evaluations (checkAllFiles env (loadConfig [] content).2).2)
        = (evaluations (checkAllFiles env (loadConfig [] content).2).2).filter
          (fun e => e.2 = j) := by
      apply List.filter_congr
      intro x _
      exact Bool.beq_eq_decide_eq x.2 j
    rw [this, h3]
    rfl

theorem loaded_two_paths :
    (loadConfig [] "path\tsize\taction\ttype\n/srv/private/cache\t1MB\twarn\tpath\n/var/log\t1MB\twarn\tpath\n").2
      = [FileConfig.mk "/srv/private/cache" 1048576 "1MB" "warn" false "path",
         FileConfig.mk "/var/log" 1048576 "1MB" "warn" false "path"] := by
  decide!

/-- C13, on the code. A configuration file with two records of type path is loaded as two
entries of type path. In a pass in which `std::filesystem::exists` throws at line 279 for
the first of them (the monitor may not search the directory `/srv/private`, and `stat`
fails with `EACCES`) the exception leaves `checkAllFiles`: no target evaluation is
completed, and the second entry, whose directory holds 2 MiB against a threshold of
1 MiB, is skipped, where the same pass with calls that return evaluates both entries,
each once. -/
theorem throwing_scan_skips_later_entries :
    (loadConfig [] "path\tsize\taction\ttype\n/srv/private/cache\t1MB\twarn\tpath\n/var/log\t1MB\twarn\tpath\n").2
      = [FileConfig.mk "/srv/private/cache" 1048576 "1MB" "warn" false "path",
         FileConfig.mk "/var/log" 1048576 "1MB" "warn" false "path"]
    ∧ checkAllFilesThrowing (fun i => ⟨⟨2097152, 0, 0⟩, decide (i = 0), false⟩)
        [FileConfig.mk "/srv/private/cache" 1048576 "1MB" "warn" false "path",
         FileConfig.mk "/var/log" 1048576 "1MB" "warn" false "path"]
      = ([FileConfig.mk "/srv/private/cache" 1048576 "1MB" "warn" false "path",
          FileConfig.mk "/var/log" 1048576 "1MB" "warn" false "path"], [], true)
    ∧ evaluations (checkAllFilesThrowing (fun i => ⟨⟨2097152, 0, 0⟩, decide (i = 0), false⟩)
        [FileConfig.mk "/srv/private/cache" 1048576 "1MB" "warn" false "path",
         FileConfig.mk "/var/log" 1048576 "1MB" "warn" false "path"]).2.1 = []
    ∧ evaluations (checkAllFilesThrowing (fun _ => ⟨⟨2097152, 0, 0⟩, false, false⟩)
        [FileConfig.mk "/srv/private/cache" 1048576 "1MB" "warn" false "path",
         FileConfig.mk "/var/log" 1048576 "1MB" "warn" false "path"]).2.1
      = [("path", 0), ("path", 1)] :=
  ⟨loaded_two_paths, by decide, by decide, by decide⟩

end FileSizeMonitor
